import Mathlib

/-!
# Cache key generation of the rate limiter (`src/limiter/cache_key.go`)

A shallow embedding of `CacheKeyGenerator.GenerateCacheKey` and of the helpers it
calls, followed by theorems about the generated keys.

Modelling conventions

* Go strings and the contents of a `bytes.Buffer` are Lean `String`s;
  `WriteString` is `++` and `WriteByte` is `String.push`.
* `int64` values are `Int`s; the two arithmetic steps of the source
  (`now/divider` and `* divider`) wrap explicitly modulo `2^64`.
* A run-time panic (nil dereference, division by zero, a unit without divider)
  is the result `none`.
* `sync.Pool` is an explicit list of idle buffers, each with the bytes an earlier
  call left in it.
* The `logger.Debugf` / `logger.Warningf` calls do not influence the returned
  value and are left out.
-/

namespace Limiter

/-! ## Data model -/

/-- Modelled from the spec: the enumeration `pb.RateLimitResponse_RateLimit_Unit`
(declared in the protobuf package, outside this repository's sources). The spec
lists SECOND, MINUTE, HOUR, DAY, MONTH and leaves the rest open; `OTHER` carries
the numeric code of any further value. -/
inductive RateLimitUnit where
  | SECOND
  | MINUTE
  | HOUR
  | DAY
  | MONTH
  | OTHER (code : Nat)
  deriving DecidableEq, Repr

/-- Modelled from the spec: `config.RateLimit`, "opaque limit definition exposing
at least its Unit" (the source reads `limit.Limit.Unit`). -/
structure RateLimit where
  Unit : RateLimitUnit
  deriving DecidableEq, Repr

/-- Modelled from the spec: one `RateLimitDescriptor_Entry`, a pair of strings. -/
structure Entry where
  Key : String
  Value : String
  deriving DecidableEq, Repr

/-- Modelled from the spec: `pb_struct.RateLimitDescriptor`, an ordered sequence of
entries. -/
structure RateLimitDescriptor where
  Entries : List Entry
  deriving DecidableEq, Repr

/-- Modelled from the spec: `filter.FilterAction`, the verdict of a filter. -/
inductive FilterAction where
  | Allow
  | Deny
  | Error
  deriving DecidableEq, Repr

/-- Modelled from the spec: `filter.Filter`; `Match(value)` returns the verdict and
a diagnostic reason. -/
abbrev Filter := String → FilterAction × String

/-- The struct `CacheKey` (source lines 41-45). -/
structure CacheKey where
  Key : String
  PerSecond : Bool
  deriving DecidableEq, Repr

/-- Contents of one `bytes.Buffer`. -/
abbrev Buffer := String

/-- The struct `CacheKeyGenerator` (source lines 24-28): the key prefix (field
`prefix` in the source) and the pool of idle buffers. -/
structure CacheKeyGenerator where
  pfx : String
  bufferPool : List Buffer
  deriving DecidableEq, Repr

/-! ## Constants (source lines 18-22) -/

def entryKeyRemoteAddr : String := "remote_address"

def entryKeyUserID : String := "user_id"

def cacheKeyBlocked : String := "_user_blocked"

/-! ## Library operations used by the source -/

/-- Two's-complement wrap of an integer into the `int64` range. -/
def wrap64 (x : Int) : Int := (x + 2 ^ 63) % 2 ^ 64 - 2 ^ 63

/-- Go's `a / b` on `int64`: truncated quotient, panic on a zero divisor, wrap on
the single overflowing case. -/
def int64Div (a b : Int) : Option Int :=
  if b = 0 then none else some (wrap64 (Int.tdiv a b))

/-- Go's `a * b` on `int64`. -/
def int64Mul (a b : Int) : Int := wrap64 (a * b)

/-- The call `strconv.FormatInt(i, 10)`: decimal digits, with a leading minus
sign for a negative number. -/
def formatInt (i : Int) : String :=
  if i < 0 then "-" ++ Nat.repr i.natAbs else Nat.repr i.natAbs

/-- The call `bufferPool.Get()`: an idle buffer if there is one, else a new empty
one (`New` of source lines 34-36). -/
def poolGet (pool : List Buffer) : Buffer × List Buffer :=
  match pool with
  | [] => ("", [])
  | b :: rest => (b, rest)

/-- The call `b.Reset()`: the buffer becomes empty, whatever it held. -/
def bufferReset (_ : Buffer) : Buffer := ""

/-- The call `bufferPool.Put(b)`. -/
def poolPut (pool : List Buffer) (b : Buffer) : List Buffer := b :: pool

/-! ## The source functions -/

/-- Source lines 30-39. -/
def NewCacheKeyGenerator (pfx : String) : CacheKeyGenerator :=
  { pfx := pfx, bufferPool := [] }

/-- Source lines 47-49. -/
def isPerSecondLimit (unit : RateLimitUnit) : Bool :=
  decide (unit = RateLimitUnit.SECOND)

/-- The `switch` of source lines 80-93 and the one of lines 97-108: `some` is the
value of an early `return`, `none` means the switch falls through (the
`Warningf` of line 92 has no effect on the result). -/
def filterSwitch (f : Filter) (value : String) : Option CacheKey :=
  match (f value).1 with
  | FilterAction.Allow => some { Key := "", PerSecond := false }
  | FilterAction.Deny => some { Key := cacheKeyBlocked, PerSecond := false }
  | FilterAction.Error => none

/-- Source lines 76-110, the filter part of one loop iteration: `some ck` when the
iteration returns `ck`, `none` when control reaches the writes of line 112. -/
def checkEntry (domain : String) (ipFilter uidFilter : Filter) (entry : Entry) :
    Option CacheKey :=
  if domain = "edge_proxy_per_ip" then
    match (if entry.Key = entryKeyRemoteAddr then filterSwitch ipFilter entry.Value
           else none) with
    | some ck => some ck
    | none =>
      if entry.Key = entryKeyUserID then filterSwitch uidFilter entry.Value else none
  else none

/-- Source lines 112-115: the four writes for one entry. -/
def writeEntry (b : Buffer) (entry : Entry) : Buffer :=
  (((b ++ entry.Key).push '_') ++ entry.Value).push '_'

/-- The loop of source lines 75-116 over the entries, started with buffer `b`.
Returns the buffer when the loop ends and the value of an early `return`, if
one happened. -/
def entryLoop (domain : String) (ipFilter uidFilter : Filter) :
    List Entry → Buffer → Buffer × Option CacheKey
  | [], b => (b, none)
  | entry :: rest, b =>
    match checkEntry domain ipFilter uidFilter entry with
    | some ck => (b, some ck)
    | none => entryLoop domain ipFilter uidFilter rest (writeEntry b entry)

/-- Source lines 57-125. `unitToDivider` stands for `utils.UnitToDivider`, which
lives outside this repository's sources; `none` is a unit for which it does not
return. The result pairs the returned `CacheKey` (`none` for a panic) with the
generator after the deferred `Put`. -/
def GenerateCacheKey (this : CacheKeyGenerator) (unitToDivider : RateLimitUnit → Option Int)
    (domain : String) (descriptor : Option RateLimitDescriptor) (limit : Option RateLimit)
    (now : Int) (ipFilter uidFilter : Filter) : Option CacheKey × CacheKeyGenerator :=
  match limit with
  | none => (some { Key := "", PerSecond := false }, this)
  | some limit =>
    let got := poolGet this.bufferPool
    let put : Buffer → CacheKeyGenerator := fun b =>
      { this with bufferPool := poolPut got.2 b }
    let b0 : Buffer := bufferReset got.1
    let b1 : Buffer := ((b0 ++ this.pfx) ++ domain).push '_'
    match descriptor with
    | none => (none, put b1)
    | some descriptor =>
      match entryLoop domain ipFilter uidFilter descriptor.Entries b1 with
      | (b2, some ck) => (some ck, put b2)
      | (b2, none) =>
        match unitToDivider limit.Unit with
        | none => (none, put b2)
        | some divider =>
          match int64Div now divider with
          | none => (none, put b2)
          | some q =>
            let b3 : Buffer := b2 ++ formatInt (int64Mul q divider)
            (some { Key := b3, PerSecond := isPerSecondLimit limit.Unit }, put b3)

/-! ## Vocabulary of the properties -/

/-- The per-entry segment of a key: `key_value_` for every entry, in order. -/
def entriesSegment : List Entry → String
  | [] => ""
  | e :: rest => e.Key ++ "_" ++ e.Value ++ "_" ++ entriesSegment rest

/-- An entry is decisive with verdict `a` when its key is "remote_address" and the
IP filter answers `a` on its value, or its key is "user_id" and the user-id
filter answers `a` on its value. -/
def DecisiveWith (ipFilter uidFilter : Filter) (a : FilterAction) (e : Entry) : Prop :=
  (e.Key = "remote_address" ∧ (ipFilter e.Value).1 = a) ∨
  (e.Key = "user_id" ∧ (uidFilter e.Value).1 = a)

/-- An entry is decisive when its filter answers Allow or Deny. -/
def Decisive (ipFilter uidFilter : Filter) (e : Entry) : Prop :=
  DecisiveWith ipFilter uidFilter FilterAction.Allow e ∨
  DecisiveWith ipFilter uidFilter FilterAction.Deny e

/-- No entry of the list triggers a filter short-circuit: the domain is not the
filtered one, or no entry is decisive. -/
def NoShortCircuit (domain : String) (ipFilter uidFilter : Filter) (entries : List Entry) :
    Prop :=
  domain = "edge_proxy_per_ip" → ∀ e ∈ entries, ¬ Decisive ipFilter uidFilter e

/-- A string without the separator character. -/
def DelimiterFree (s : String) : Prop := '_' ∉ s.data

/-- The value is in the range of `int64`. -/
def IsInt64 (x : Int) : Prop := -(2 ^ 63) ≤ x ∧ x < 2 ^ 63

instance (ipFilter uidFilter : Filter) (a : FilterAction) (e : Entry) :
    Decidable (DecisiveWith ipFilter uidFilter a e) := by
  unfold DecisiveWith; infer_instance

instance (ipFilter uidFilter : Filter) (e : Entry) : Decidable (Decisive ipFilter uidFilter e) := by
  unfold Decisive; infer_instance

instance (domain : String) (ipFilter uidFilter : Filter) (entries : List Entry) :
    Decidable (NoShortCircuit domain ipFilter uidFilter entries) := by
  unfold NoShortCircuit; infer_instance

instance (s : String) : Decidable (DelimiterFree s) := by
  unfold DelimiterFree; infer_instance

instance (x : Int) : Decidable (IsInt64 x) := by
  unfold IsInt64; infer_instance

/-- Reading a list of decimal digit characters back as a number. -/
def parseDigits (cs : List Char) : Nat :=
  Nat.ofDigits 10 ((cs.map fun c => c.toNat - 48).reverse)

/-- The entries the loop ranges over; a nil descriptor has none (and the call
panics before reading any). -/
def descriptorEntries : Option RateLimitDescriptor → List Entry
  | none => []
  | some descriptor => descriptor.Entries

/-- The first decisive entry of the list exists and its verdict is `a`. Entries
are decisive in the filtered domain "edge_proxy_per_ip" only. -/
def FirstDecisive (domain : String) (ipFilter uidFilter : Filter) (entries : List Entry)
    (a : FilterAction) : Prop :=
  domain = "edge_proxy_per_ip" ∧
  ∃ pre e post, entries = pre ++ e :: post ∧
    (∀ x ∈ pre, ¬ Decisive ipFilter uidFilter x) ∧ DecisiveWith ipFilter uidFilter a e

/-- The bucket of source line 119, `(now/divider)*divider`, in `int64` arithmetic;
`none` when the division panics. -/
def bucketOf (now divider : Int) : Option Int :=
  match int64Div now divider with
  | none => none
  | some q => some (int64Mul q divider)

/-! ## Sample inputs -/

/-- The dividers of the four units the upstream `UnitToDivider` supports. -/
def sampleDivider : RateLimitUnit → Option Int
  | RateLimitUnit.SECOND => some 1
  | RateLimitUnit.MINUTE => some 60
  | RateLimitUnit.HOUR => some 3600
  | RateLimitUnit.DAY => some 86400
  | _ => none

/-- A filter that answers Error on every value. -/
def errorFilter : Filter := fun _ => (FilterAction.Error, "no verdict")

/-- A filter that denies "1.2.3.4" and "bad", allows "9.9.9.9" and "good", and
answers Error on everything else. -/
def sampleFilter : Filter := fun v =>
  if v = "1.2.3.4" ∨ v = "bad" then (FilterAction.Deny, "")
  else if v = "9.9.9.9" ∨ v = "good" then (FilterAction.Allow, "")
  else (FilterAction.Error, "unknown")

/-! ## Integer arithmetic of the bucket -/

theorem wrap64_of_isInt64 (x : Int) (h : IsInt64 x) : wrap64 x = x := by
  unfold IsInt64 at h
  unfold wrap64
  omega

theorem tdiv_range_nonneg (now d : Int) (hnow : 0 ≤ now) (hd : 0 < d) :
    0 ≤ Int.tdiv now d ∧ Int.tdiv now d ≤ Int.tdiv now d * d ∧ Int.tdiv now d * d ≤ now := by
  rw [Int.tdiv_eq_ediv hnow (le_of_lt hd)]
  have h1 : 0 ≤ now / d := Int.ediv_nonneg hnow (le_of_lt hd)
  have h2 : now / d * d ≤ now := Int.ediv_mul_le now (ne_of_gt hd)
  refine ⟨h1, ?_, h2⟩
  nlinarith

theorem tdiv_range_nonpos (now d : Int) (hnow : now ≤ 0) (hd : 0 < d) :
    Int.tdiv now d ≤ 0 ∧ Int.tdiv now d * d ≤ Int.tdiv now d ∧ now ≤ Int.tdiv now d * d := by
  have h := tdiv_range_nonneg (-now) d (by omega) hd
  rw [Int.neg_tdiv] at h
  obtain ⟨h1, h2, h3⟩ := h
  have e : -(Int.tdiv now d) * d = -(Int.tdiv now d * d) := by ring
  rw [e] at h2 h3
  refine ⟨by omega, by omega, by omega⟩

theorem bucket_of_isInt64 (now d : Int) (hnow : IsInt64 now) (hd : 0 < d) :
    int64Mul (wrap64 (Int.tdiv now d)) d = Int.tdiv now d * d := by
  unfold int64Mul
  by_cases h0 : 0 ≤ now
  · obtain ⟨h1, h2, h3⟩ := tdiv_range_nonneg now d h0 hd
    have hq : IsInt64 (Int.tdiv now d) := by unfold IsInt64 at *; omega
    have hb : IsInt64 (Int.tdiv now d * d) := by unfold IsInt64 at *; omega
    rw [wrap64_of_isInt64 _ hq, wrap64_of_isInt64 _ hb]
  · obtain ⟨h1, h2, h3⟩ := tdiv_range_nonpos now d (by omega) hd
    have hq : IsInt64 (Int.tdiv now d) := by unfold IsInt64 at *; omega
    have hb : IsInt64 (Int.tdiv now d * d) := by unfold IsInt64 at *; omega
    rw [wrap64_of_isInt64 _ hq, wrap64_of_isInt64 _ hb]

theorem int64Div_of_ne_zero (now d : Int) (hd : d ≠ 0) :
    int64Div now d = some (wrap64 (Int.tdiv now d)) := by
  simp [int64Div, hd]

/-! ## Decimal formatting -/

theorem digitChar_toNat (d : Nat) (h : d < 10) : (Nat.digitChar d).toNat - 48 = d := by
  interval_cases d <;> rfl

theorem digitChar_ne_minus (d : Nat) (h : d < 10) : Nat.digitChar d ≠ '-' := by
  interval_cases d <;> decide

theorem toDigitsCore_eq : ∀ (fuel n : Nat) (ds : List Char), 0 < n → n < fuel →
    Nat.toDigitsCore 10 fuel n ds = ((Nat.digits 10 n).reverse.map Nat.digitChar) ++ ds := by
  intro fuel
  induction fuel with
  | zero => intro n ds _ h; omega
  | succ f ih =>
    intro n ds hn hf
    rw [Nat.toDigitsCore, Nat.digits_def' (by norm_num) hn]
    by_cases h0 : n / 10 = 0
    · simp [h0]
    · have hpos : 0 < n / 10 := Nat.pos_of_ne_zero h0
      have hlt : n / 10 < f := by omega
      simp only [h0, if_false]
      rw [ih (n / 10) _ hpos hlt]
      simp

theorem repr_data_pos (n : Nat) (hn : 0 < n) :
    (Nat.repr n).data = (Nat.digits 10 n).reverse.map Nat.digitChar := by
  show Nat.toDigits 10 n = _
  rw [Nat.toDigits, toDigitsCore_eq (n + 1) n [] hn (by omega)]
  simp

theorem repr_data_zero : (Nat.repr 0).data = [Nat.digitChar 0] := rfl

/-- Every character of a decimal numeral is one of the ten digits. -/
theorem repr_chars (n : Nat) : ∀ c ∈ (Nat.repr n).data, ∃ d, d < 10 ∧ c = Nat.digitChar d := by
  intro c hc
  rcases Nat.eq_zero_or_pos n with h0 | hpos
  · subst h0
    rw [repr_data_zero] at hc
    exact ⟨0, by norm_num, by simpa using hc⟩
  · rw [repr_data_pos n hpos] at hc
    obtain ⟨d, hd, rfl⟩ := List.mem_map.1 hc
    exact ⟨d, Nat.digits_lt_base (by norm_num) (List.mem_reverse.1 hd), rfl⟩

theorem repr_data_ne_nil (n : Nat) : (Nat.repr n).data ≠ [] := by
  rcases Nat.eq_zero_or_pos n with h0 | hpos
  · subst h0; rw [repr_data_zero]; simp
  · rw [repr_data_pos n hpos]
    have : Nat.digits 10 n ≠ [] := Nat.digits_ne_nil_iff_ne_zero.2 (by omega)
    simpa using this

theorem parseDigits_repr (n : Nat) : parseDigits (Nat.repr n).data = n := by
  rcases Nat.eq_zero_or_pos n with h0 | hpos
  · subst h0
    rw [repr_data_zero]
    simp [parseDigits, Nat.digitChar]
  · rw [repr_data_pos n hpos]
    unfold parseDigits
    have hmap : List.map (fun c => Char.toNat c - 48)
        (List.map Nat.digitChar (Nat.digits 10 n).reverse) = (Nat.digits 10 n).reverse := by
      rw [List.map_map]
      conv_rhs => rw [← List.map_id (Nat.digits 10 n).reverse]
      apply List.map_congr_left
      intro d hd
      exact digitChar_toNat d (Nat.digits_lt_base (by norm_num) (List.mem_reverse.1 hd))
    rw [hmap, List.reverse_reverse, Nat.ofDigits_digits]

theorem repr_injective (a b : Nat) (h : Nat.repr a = Nat.repr b) : a = b := by
  rw [← parseDigits_repr a, ← parseDigits_repr b, h]

theorem repr_ne_minus (a b : Nat) : "-" ++ Nat.repr a ≠ Nat.repr b := by
  intro h
  have hd : ('-' :: (Nat.repr a).data) = (Nat.repr b).data := by
    rw [← h]; simp [String.data_append]
  have hm : '-' ∈ (Nat.repr b).data := by rw [← hd]; simp
  obtain ⟨d, hd10, hc⟩ := repr_chars b '-' hm
  exact digitChar_ne_minus d hd10 hc.symm

/-- The decimal rendering of integers is injective. -/
theorem formatInt_injective (i j : Int) (h : formatInt i = formatInt j) : i = j := by
  unfold formatInt at h
  by_cases hi : i < 0 <;> by_cases hj : j < 0
  · simp only [hi, hj, if_true] at h
    have h2 : Nat.repr i.natAbs = Nat.repr j.natAbs := by
      apply String.ext
      have := congrArg String.data h
      simpa [String.data_append] using this
    have := repr_injective _ _ h2
    omega
  · simp only [hi, hj, if_true, if_false] at h
    exact absurd h (repr_ne_minus _ _)
  · simp only [hi, hj, if_true, if_false] at h
    exact absurd h.symm (repr_ne_minus _ _)
  · simp only [hi, hj, if_false] at h
    have := repr_injective _ _ h
    omega

/-! ## Strings -/

theorem writeEntry_eq (b : Buffer) (e : Entry) :
    writeEntry b e = b ++ (e.Key ++ "_" ++ e.Value ++ "_") := by
  apply String.ext
  simp [writeEntry, String.data_append, String.data_push]

theorem entriesSegment_append (xs ys : List Entry) :
    entriesSegment (xs ++ ys) = entriesSegment xs ++ entriesSegment ys := by
  induction xs with
  | nil => apply String.ext; simp [entriesSegment]
  | cons x xs ih =>
    apply String.ext
    simp [entriesSegment, ih, String.data_append]

theorem string_append_left_cancel (a x y : String) (h : a ++ x = a ++ y) : x = y := by
  apply String.ext
  have := congrArg String.data h
  simpa [String.data_append] using this

theorem string_append_right_cancel (x y a : String) (h : x ++ a = y ++ a) : x = y := by
  apply String.ext
  have := congrArg String.data h
  simpa [String.data_append] using this

/-- Two lists that agree up to and after the first occurrence of `c` agree on
both sides of it. -/
theorem split_at_delimiter (c : Char) :
    ∀ (a a' r r' : List Char), c ∉ a → c ∉ a' → a ++ c :: r = a' ++ c :: r' →
      a = a' ∧ r = r' := by
  intro a
  induction a with
  | nil =>
    intro a' r r' _ ha' h
    cases a' with
    | nil => simpa using h
    | cons x t =>
      simp only [List.nil_append, List.cons_append, List.cons.injEq] at h
      exact absurd (h.1 ▸ List.mem_cons_self x t) ha'
  | cons y s ih =>
    intro a' r r' ha ha' h
    cases a' with
    | nil =>
      simp only [List.nil_append, List.cons_append, List.cons.injEq] at h
      exact absurd (h.1 ▸ List.mem_cons_self y s) ha
    | cons x t =>
      simp only [List.cons_append, List.cons.injEq] at h
      obtain ⟨hxy, ht⟩ := h
      have := ih t r r' (fun hc => ha (List.mem_cons_of_mem y hc))
        (fun hc => ha' (List.mem_cons_of_mem x hc)) ht
      exact ⟨by rw [hxy, this.1], this.2⟩

/-- The segment of one delimiter-free entry determines the entry and what
follows it. -/
theorem segment_head_inj (e1 e2 : Entry) (r1 r2 : String)
    (h1k : DelimiterFree e1.Key) (h1v : DelimiterFree e1.Value)
    (h2k : DelimiterFree e2.Key) (h2v : DelimiterFree e2.Value)
    (h : e1.Key ++ "_" ++ e1.Value ++ "_" ++ r1 = e2.Key ++ "_" ++ e2.Value ++ "_" ++ r2) :
    e1 = e2 ∧ r1 = r2 := by
  have hdata := congrArg String.data h
  simp only [String.data_append, List.append_assoc, List.singleton_append] at hdata
  obtain ⟨hk, hrest⟩ := split_at_delimiter '_' _ _ _ _ h1k h2k hdata
  obtain ⟨hv, hr⟩ := split_at_delimiter '_' _ _ _ _ h1v h2v hrest
  refine ⟨?_, String.ext hr⟩
  cases e1
  cases e2
  simp only [Entry.mk.injEq]
  exact ⟨String.ext hk, String.ext hv⟩

/-- On delimiter-free entries the segment string determines the entry list. -/
theorem entriesSegment_injective :
    ∀ (es1 es2 : List Entry),
      (∀ e ∈ es1, DelimiterFree e.Key ∧ DelimiterFree e.Value) →
      (∀ e ∈ es2, DelimiterFree e.Key ∧ DelimiterFree e.Value) →
      entriesSegment es1 = entriesSegment es2 → es1 = es2 := by
  intro es1
  induction es1 with
  | nil =>
    intro es2 _ _ h
    cases es2 with
    | nil => rfl
    | cons y ys =>
      exfalso
      have hdata := congrArg String.data h
      have hs : ("_" : String).data = ['_'] := rfl
      simp [entriesSegment, String.data_append, hs] at hdata
  | cons x xs ih =>
    intro es2 h1 h2 h
    cases es2 with
    | nil =>
      exfalso
      have hdata := congrArg String.data h
      have hs : ("_" : String).data = ['_'] := rfl
      simp [entriesSegment, String.data_append, hs] at hdata
    | cons y ys =>
      simp only [entriesSegment] at h
      have hx := h1 x (List.mem_cons_self x xs)
      have hy := h2 y (List.mem_cons_self y ys)
      obtain ⟨hxy, hr⟩ := segment_head_inj x y _ _ hx.1 hx.2 hy.1 hy.2 h
      rw [hxy, ih ys (fun e he => h1 e (List.mem_cons_of_mem x he))
        (fun e he => h2 e (List.mem_cons_of_mem y he)) hr]

/-! ## The filter part of one iteration -/

theorem checkEntry_other_domain (domain : String) (ipFilter uidFilter : Filter) (e : Entry)
    (h : domain ≠ "edge_proxy_per_ip") : checkEntry domain ipFilter uidFilter e = none := by
  simp [checkEntry, h]

theorem checkEntry_none_iff (ipFilter uidFilter : Filter) (e : Entry) :
    checkEntry "edge_proxy_per_ip" ipFilter uidFilter e = none ↔
      ¬ Decisive ipFilter uidFilter e := by
  unfold checkEntry filterSwitch Decisive DecisiveWith entryKeyRemoteAddr entryKeyUserID
  by_cases h1 : e.Key = "remote_address" <;> by_cases h2 : e.Key = "user_id" <;>
    cases h3 : (ipFilter e.Value).1 <;> cases h4 : (uidFilter e.Value).1 <;> simp_all

theorem checkEntry_allow_iff (ipFilter uidFilter : Filter) (e : Entry) :
    checkEntry "edge_proxy_per_ip" ipFilter uidFilter e = some ⟨"", false⟩ ↔
      DecisiveWith ipFilter uidFilter FilterAction.Allow e := by
  unfold checkEntry filterSwitch DecisiveWith entryKeyRemoteAddr entryKeyUserID
    cacheKeyBlocked
  by_cases h1 : e.Key = "remote_address" <;> by_cases h2 : e.Key = "user_id" <;>
    cases h3 : (ipFilter e.Value).1 <;> cases h4 : (uidFilter e.Value).1 <;> simp_all

theorem checkEntry_deny_iff (ipFilter uidFilter : Filter) (e : Entry) :
    checkEntry "edge_proxy_per_ip" ipFilter uidFilter e = some ⟨"_user_blocked", false⟩ ↔
      DecisiveWith ipFilter uidFilter FilterAction.Deny e := by
  unfold checkEntry filterSwitch DecisiveWith entryKeyRemoteAddr entryKeyUserID
    cacheKeyBlocked
  by_cases h1 : e.Key = "remote_address" <;> by_cases h2 : e.Key = "user_id" <;>
    cases h3 : (ipFilter e.Value).1 <;> cases h4 : (uidFilter e.Value).1 <;> simp_all

theorem checkEntry_none_of_noShortCircuit (domain : String) (ipFilter uidFilter : Filter)
    (entries : List Entry) (h : NoShortCircuit domain ipFilter uidFilter entries) :
    ∀ e ∈ entries, checkEntry domain ipFilter uidFilter e = none := by
  intro e he
  by_cases hd : domain = "edge_proxy_per_ip"
  · subst hd
    exact (checkEntry_none_iff ipFilter uidFilter e).2 (h rfl e he)
  · exact checkEntry_other_domain domain ipFilter uidFilter e hd

/-! ## The loop -/

theorem entryLoop_of_none (domain : String) (ipFilter uidFilter : Filter) :
    ∀ (entries : List Entry) (b : Buffer),
      (∀ e ∈ entries, checkEntry domain ipFilter uidFilter e = none) →
      entryLoop domain ipFilter uidFilter entries b = (b ++ entriesSegment entries, none) := by
  intro entries
  induction entries with
  | nil => intro b _; simp [entryLoop, entriesSegment]
  | cons x xs ih =>
    intro b h
    have hx := h x (List.mem_cons_self x xs)
    have hxs : ∀ e ∈ xs, checkEntry domain ipFilter uidFilter e = none :=
      fun e he => h e (List.mem_cons_of_mem x he)
    simp only [entryLoop, hx]
    rw [ih _ hxs, writeEntry_eq]
    congr 1
    apply String.ext
    simp [entriesSegment, String.data_append]

theorem entryLoop_first_some (domain : String) (ipFilter uidFilter : Filter)
    (ck : CacheKey) (e : Entry) (post : List Entry) :
    ∀ (pre : List Entry) (b : Buffer),
      (∀ x ∈ pre, checkEntry domain ipFilter uidFilter x = none) →
      checkEntry domain ipFilter uidFilter e = some ck →
      (entryLoop domain ipFilter uidFilter (pre ++ e :: post) b).2 = some ck := by
  intro pre
  induction pre with
  | nil => intro b _ he; simp [entryLoop, he]
  | cons x xs ih =>
    intro b h he
    have hx := h x (List.mem_cons_self x xs)
    have hxs : ∀ y ∈ xs, checkEntry domain ipFilter uidFilter y = none :=
      fun y hy => h y (List.mem_cons_of_mem x hy)
    simp only [List.cons_append, entryLoop, hx]
    exact ih _ hxs he

/-! ## The whole function -/

theorem generate_absent (this : CacheKeyGenerator) (unitToDivider : RateLimitUnit → Option Int)
    (domain : String) (descriptor : Option RateLimitDescriptor) (now : Int)
    (ipFilter uidFilter : Filter) :
    GenerateCacheKey this unitToDivider domain descriptor none now ipFilter uidFilter =
      (some ⟨"", false⟩, this) := rfl

theorem generate_normal (this : CacheKeyGenerator) (unitToDivider : RateLimitUnit → Option Int)
    (domain : String) (entries : List Entry) (limit : RateLimit) (d now : Int)
    (ipFilter uidFilter : Filter)
    (hn : ∀ e ∈ entries, checkEntry domain ipFilter uidFilter e = none)
    (hd : unitToDivider limit.Unit = some d) (hd0 : d ≠ 0) :
    (GenerateCacheKey this unitToDivider domain (some ⟨entries⟩) (some limit) now
        ipFilter uidFilter).1 =
      some ⟨this.pfx ++ domain ++ "_" ++ entriesSegment entries ++
              formatInt (int64Mul (wrap64 (Int.tdiv now d)) d),
            isPerSecondLimit limit.Unit⟩ := by
  unfold GenerateCacheKey
  simp only [entryLoop_of_none domain ipFilter uidFilter entries _ hn, hd,
    int64Div_of_ne_zero now d hd0]
  congr 2

theorem generate_short (this : CacheKeyGenerator) (unitToDivider : RateLimitUnit → Option Int)
    (domain : String) (pre : List Entry) (e : Entry) (post : List Entry) (limit : RateLimit)
    (now : Int) (ipFilter uidFilter : Filter) (ck : CacheKey)
    (hpre : ∀ x ∈ pre, checkEntry domain ipFilter uidFilter x = none)
    (he : checkEntry domain ipFilter uidFilter e = some ck) :
    (GenerateCacheKey this unitToDivider domain (some ⟨pre ++ e :: post⟩) (some limit) now
        ipFilter uidFilter).1 = some ck := by
  unfold GenerateCacheKey
  simp only
  have h := entryLoop_first_some domain ipFilter uidFilter ck e post pre
    (((bufferReset (poolGet this.bufferPool).1 ++ this.pfx) ++ domain).push '_') hpre he
  rcases hl : entryLoop domain ipFilter uidFilter (pre ++ e :: post)
    (((bufferReset (poolGet this.bufferPool).1 ++ this.pfx) ++ domain).push '_') with ⟨b2, r⟩
  rw [hl] at h
  simp only at h
  subst h
  rfl

theorem generate_of_loop_some (this : CacheKeyGenerator)
    (unitToDivider : RateLimitUnit → Option Int) (domain : String) (entries : List Entry)
    (limit : RateLimit) (now : Int) (ipFilter uidFilter : Filter) (ck : CacheKey)
    (h : ∀ b : Buffer, (entryLoop domain ipFilter uidFilter entries b).2 = some ck) :
    (GenerateCacheKey this unitToDivider domain (some ⟨entries⟩) (some limit) now
        ipFilter uidFilter).1 = some ck := by
  unfold GenerateCacheKey
  simp only
  have h1 := h (((bufferReset (poolGet this.bufferPool).1 ++ this.pfx) ++ domain).push '_')
  rcases hl : entryLoop domain ipFilter uidFilter entries
    (((bufferReset (poolGet this.bufferPool).1 ++ this.pfx) ++ domain).push '_') with ⟨b2, r⟩
  rw [hl] at h1
  simp only at h1
  subst h1
  rfl

/-- The loop either runs through all entries, or stops at a first entry whose
filter check returns. -/
theorem entries_cases (domain : String) (ipFilter uidFilter : Filter) (entries : List Entry) :
    (∀ e ∈ entries, checkEntry domain ipFilter uidFilter e = none) ∨
    (∃ pre e post ck, entries = pre ++ e :: post ∧
      (∀ x ∈ pre, checkEntry domain ipFilter uidFilter x = none) ∧
      checkEntry domain ipFilter uidFilter e = some ck) := by
  induction entries with
  | nil => left; intro e he; exact absurd he (List.not_mem_nil e)
  | cons x xs ih =>
    cases hx : checkEntry domain ipFilter uidFilter x with
    | some ck =>
      right
      exact ⟨[], x, xs, ck, rfl, fun y hy => absurd hy (List.not_mem_nil y), hx⟩
    | none =>
      rcases ih with hall | ⟨pre, e, post, ck, heq, hpre, he⟩
      · left
        intro e he
        rcases List.mem_cons.1 he with rfl | h
        · exact hx
        · exact hall e h
      · right
        refine ⟨x :: pre, e, post, ck, by rw [heq]; rfl, ?_, he⟩
        intro y hy
        rcases List.mem_cons.1 hy with rfl | h
        · exact hx
        · exact hpre y h

/-- An early return of the filter check is one of the two reserved values. -/
theorem checkEntry_some_cases (domain : String) (ipFilter uidFilter : Filter) (e : Entry)
    (ck : CacheKey) (h : checkEntry domain ipFilter uidFilter e = some ck) :
    ck = ⟨"", false⟩ ∨ ck = ⟨"_user_blocked", false⟩ := by
  unfold checkEntry filterSwitch cacheKeyBlocked at h
  by_cases hdom : domain = "edge_proxy_per_ip" <;>
    by_cases h1 : e.Key = entryKeyRemoteAddr <;> by_cases h2 : e.Key = entryKeyUserID <;>
    cases h3 : (ipFilter e.Value).1 <;> cases h4 : (uidFilter e.Value).1 <;>
    simp_all

/-- If every entry before `e` either passes the filter check or returns `ck`, and
`e` returns `ck`, the loop returns `ck`. -/
theorem entryLoop_verdict (domain : String) (ipFilter uidFilter : Filter)
    (ck : CacheKey) (e : Entry) (post : List Entry) :
    ∀ (pre : List Entry) (b : Buffer),
      (∀ x ∈ pre, checkEntry domain ipFilter uidFilter x = none ∨
        checkEntry domain ipFilter uidFilter x = some ck) →
      checkEntry domain ipFilter uidFilter e = some ck →
      (entryLoop domain ipFilter uidFilter (pre ++ e :: post) b).2 = some ck := by
  intro pre
  induction pre with
  | nil => intro b _ he; simp [entryLoop, he]
  | cons x xs ih =>
    intro b h he
    have hxs : ∀ y ∈ xs, checkEntry domain ipFilter uidFilter y = none ∨
        checkEntry domain ipFilter uidFilter y = some ck :=
      fun y hy => h y (List.mem_cons_of_mem x hy)
    rcases h x (List.mem_cons_self x xs) with hx | hx
    · simp only [List.cons_append, entryLoop, hx]
      exact ih _ hxs he
    · simp only [List.cons_append, entryLoop, hx]

/-- In the filtered domain an entry that is not decisive with Deny passes the
filter check or returns the bypass value. -/
theorem checkEntry_of_not_deny (ipFilter uidFilter : Filter) (x : Entry)
    (h : ¬ DecisiveWith ipFilter uidFilter FilterAction.Deny x) :
    checkEntry "edge_proxy_per_ip" ipFilter uidFilter x = none ∨
      checkEntry "edge_proxy_per_ip" ipFilter uidFilter x = some ⟨"", false⟩ := by
  cases hx : checkEntry "edge_proxy_per_ip" ipFilter uidFilter x with
  | none => left; rfl
  | some ck =>
    right
    rcases checkEntry_some_cases _ _ _ _ _ hx with rfl | rfl
    · rfl
    · exact absurd ((checkEntry_deny_iff ipFilter uidFilter x).1 hx) h

/-- In the filtered domain an entry that is not decisive with Allow passes the
filter check or returns the blocked value. -/
theorem checkEntry_of_not_allow (ipFilter uidFilter : Filter) (x : Entry)
    (h : ¬ DecisiveWith ipFilter uidFilter FilterAction.Allow x) :
    checkEntry "edge_proxy_per_ip" ipFilter uidFilter x = none ∨
      checkEntry "edge_proxy_per_ip" ipFilter uidFilter x = some ⟨"_user_blocked", false⟩ := by
  cases hx : checkEntry "edge_proxy_per_ip" ipFilter uidFilter x with
  | none => left; rfl
  | some ck =>
    right
    rcases checkEntry_some_cases _ _ _ _ _ hx with rfl | rfl
    · exact absurd ((checkEntry_allow_iff ipFilter uidFilter x).1 hx) h
    · rfl

/-! ## The last character of a key -/

/-- A formatted integer ends with a decimal digit. -/
theorem formatInt_ends_digit (i : Int) :
    ∃ l d, d < 10 ∧ (formatInt i).data = l ++ [Nat.digitChar d] := by
  have hne := repr_data_ne_nil i.natAbs
  have hsplit := List.dropLast_append_getLast hne
  obtain ⟨d, hd, hc⟩ := repr_chars i.natAbs _ (List.getLast_mem hne)
  unfold formatInt
  by_cases hi : i < 0
  · refine ⟨'-' :: (Nat.repr i.natAbs).data.dropLast, d, hd, ?_⟩
    simp only [hi, if_true, String.data_append]
    rw [← hc]
    show '-' :: (Nat.repr i.natAbs).data = _
    rw [List.cons_append, hsplit]
  · refine ⟨(Nat.repr i.natAbs).data.dropLast, d, hd, ?_⟩
    simp only [hi, if_false]
    rw [← hc, hsplit]

/-- A key that ends with a formatted integer is neither of the reserved keys. -/
theorem key_ne_reserved (x : String) (i : Int) :
    x ++ formatInt i ≠ "" ∧ x ++ formatInt i ≠ "_user_blocked" := by
  obtain ⟨l, d, hd, hl⟩ := formatInt_ends_digit i
  have hdata : (x ++ formatInt i).data = (x.data ++ l) ++ [Nat.digitChar d] := by
    rw [String.data_append, hl, List.append_assoc]
  have hlast : (x ++ formatInt i).data.getLast? = some (Nat.digitChar d) := by
    rw [hdata]; simp
  constructor
  · intro h
    rw [h] at hlast
    simp at hlast
  · intro h
    rw [h] at hlast
    have h2 : ("_user_blocked" : String).data.getLast? = some 'd' := by decide
    rw [h2] at hlast
    have h3 : Nat.digitChar d = 'd' := (Option.some.inj hlast).symm
    revert h3
    interval_cases d <;> decide

/-! ## Dependence on the filters -/

/-- The filter check of one entry reads the IP filter's verdict only for a
"remote_address" key and the user-id filter's verdict only for a "user_id"
key. -/
theorem checkEntry_congr (domain : String) (ipFilter uidFilter ipFilter2 uidFilter2 : Filter)
    (e : Entry)
    (hip : e.Key = "remote_address" → (ipFilter e.Value).1 = (ipFilter2 e.Value).1)
    (huid : e.Key = "user_id" → (uidFilter e.Value).1 = (uidFilter2 e.Value).1) :
    checkEntry domain ipFilter uidFilter e = checkEntry domain ipFilter2 uidFilter2 e := by
  unfold checkEntry filterSwitch entryKeyRemoteAddr entryKeyUserID
  by_cases h1 : e.Key = "remote_address" <;> by_cases h2 : e.Key = "user_id" <;>
    simp_all

theorem entryLoop_congr (domain : String) (ipFilter uidFilter ipFilter2 uidFilter2 : Filter) :
    ∀ (entries : List Entry) (b : Buffer),
      (∀ e ∈ entries, e.Key = "remote_address" →
        (ipFilter e.Value).1 = (ipFilter2 e.Value).1) →
      (∀ e ∈ entries, e.Key = "user_id" →
        (uidFilter e.Value).1 = (uidFilter2 e.Value).1) →
      entryLoop domain ipFilter uidFilter entries b =
        entryLoop domain ipFilter2 uidFilter2 entries b := by
  intro entries
  induction entries with
  | nil => intro b _ _; rfl
  | cons x xs ih =>
    intro b hip huid
    have hx := checkEntry_congr domain ipFilter uidFilter ipFilter2 uidFilter2 x
      (hip x (List.mem_cons_self x xs)) (huid x (List.mem_cons_self x xs))
    simp only [entryLoop, hx]
    rw [ih (writeEntry b x) (fun e he => hip e (List.mem_cons_of_mem x he))
      (fun e he => huid e (List.mem_cons_of_mem x he))]

theorem entryLoop_other_domain (domain : String)
    (ipFilter uidFilter ipFilter2 uidFilter2 : Filter) (hdom : domain ≠ "edge_proxy_per_ip") :
    ∀ (entries : List Entry) (b : Buffer),
      entryLoop domain ipFilter uidFilter entries b =
        entryLoop domain ipFilter2 uidFilter2 entries b := by
  intro entries
  induction entries with
  | nil => intro b; rfl
  | cons x xs ih =>
    intro b
    simp only [entryLoop, checkEntry_other_domain domain _ _ x hdom]
    exact ih (writeEntry b x)

/-- The call depends on the filters through the loop only. -/
theorem generate_congr_loop (this : CacheKeyGenerator)
    (unitToDivider : RateLimitUnit → Option Int) (domain : String)
    (descriptor : Option RateLimitDescriptor) (limit : Option RateLimit) (now : Int)
    (ipFilter uidFilter ipFilter2 uidFilter2 : Filter)
    (h : ∀ b : Buffer,
      entryLoop domain ipFilter uidFilter (descriptorEntries descriptor) b =
        entryLoop domain ipFilter2 uidFilter2 (descriptorEntries descriptor) b) :
    GenerateCacheKey this unitToDivider domain descriptor limit now ipFilter uidFilter =
      GenerateCacheKey this unitToDivider domain descriptor limit now ipFilter2 uidFilter2 := by
  unfold GenerateCacheKey
  cases limit with
  | none => rfl
  | some l =>
    cases descriptor with
    | none => rfl
    | some desc =>
      simp only [descriptorEntries] at h
      simp only [h]

/-! ## The generator state -/

/-- The returned value does not depend on the pool, only on the prefix. -/
theorem generate_fst_eq (this this2 : CacheKeyGenerator)
    (unitToDivider : RateLimitUnit → Option Int) (domain : String)
    (descriptor : Option RateLimitDescriptor) (limit : Option RateLimit) (now : Int)
    (ipFilter uidFilter : Filter) (hp : this2.pfx = this.pfx) :
    (GenerateCacheKey this2 unitToDivider domain descriptor limit now ipFilter uidFilter).1 =
      (GenerateCacheKey this unitToDivider domain descriptor limit now ipFilter uidFilter).1 := by
  unfold GenerateCacheKey
  cases limit with
  | none => rfl
  | some l =>
    cases descriptor with
    | none => rfl
    | some desc =>
      simp only [bufferReset, hp]
      rcases entryLoop domain ipFilter uidFilter desc.Entries
        ((("" ++ this.pfx) ++ domain).push '_') with ⟨b2, _ | ck⟩
      · cases unitToDivider l.Unit with
        | none => rfl
        | some divider =>
          dsimp only
          cases int64Div now divider with
          | none => rfl
          | some q => rfl
      · rfl

/-- After a call with a present limit the pool is the pool after `Get` with one
buffer put on it; the prefix is unchanged. -/
theorem generate_snd_present (this : CacheKeyGenerator)
    (unitToDivider : RateLimitUnit → Option Int) (domain : String)
    (descriptor : Option RateLimitDescriptor) (l : RateLimit) (now : Int)
    (ipFilter uidFilter : Filter) :
    ∃ b : Buffer,
      (GenerateCacheKey this unitToDivider domain descriptor (some l) now
          ipFilter uidFilter).2 =
        { pfx := this.pfx, bufferPool := poolPut (poolGet this.bufferPool).2 b } := by
  unfold GenerateCacheKey
  cases descriptor with
  | none => exact ⟨_, rfl⟩
  | some desc =>
    simp only
    rcases entryLoop domain ipFilter uidFilter desc.Entries
      (((bufferReset (poolGet this.bufferPool).1 ++ this.pfx) ++ domain).push '_')
      with ⟨b2, _ | ck⟩
    · cases unitToDivider l.Unit with
      | none => exact ⟨_, rfl⟩
      | some divider =>
        dsimp only
        cases int64Div now divider with
        | none => exact ⟨_, rfl⟩
        | some q => exact ⟨_, rfl⟩
    · exact ⟨_, rfl⟩

theorem generate_pfx (this : CacheKeyGenerator)
    (unitToDivider : RateLimitUnit → Option Int) (domain : String)
    (descriptor : Option RateLimitDescriptor) (limit : Option RateLimit) (now : Int)
    (ipFilter uidFilter : Filter) :
    (GenerateCacheKey this unitToDivider domain descriptor limit now ipFilter uidFilter).2.pfx =
      this.pfx := by
  cases limit with
  | none => rfl
  | some l =>
    obtain ⟨b, hb⟩ := generate_snd_present this unitToDivider domain descriptor l now
      ipFilter uidFilter
    rw [hb]

theorem noShortCircuit_of_checkEntry_none (domain : String) (ipFilter uidFilter : Filter)
    (entries : List Entry)
    (h : ∀ e ∈ entries, checkEntry domain ipFilter uidFilter e = none) :
    NoShortCircuit domain ipFilter uidFilter entries := by
  intro hdom e he
  subst hdom
  exact (checkEntry_none_iff ipFilter uidFilter e).1 (h e he)

theorem poolGet_snd (pool : List Buffer) : (poolGet pool).2 = pool.tail := by
  cases pool <;> rfl

/-! ## The first decisive entry -/

theorem generate_of_firstDecisive (this : CacheKeyGenerator)
    (unitToDivider : RateLimitUnit → Option Int) (domain : String) (entries : List Entry)
    (l : RateLimit) (now : Int) (ipFilter uidFilter : Filter) :
    (FirstDecisive domain ipFilter uidFilter entries FilterAction.Allow →
      (GenerateCacheKey this unitToDivider domain (some ⟨entries⟩) (some l) now
          ipFilter uidFilter).1 = some ⟨"", false⟩) ∧
    (FirstDecisive domain ipFilter uidFilter entries FilterAction.Deny →
      (GenerateCacheKey this unitToDivider domain (some ⟨entries⟩) (some l) now
          ipFilter uidFilter).1 = some ⟨"_user_blocked", false⟩) := by
  constructor
  · rintro ⟨hdom, pre, e, post, heq, hpre, he⟩
    subst hdom
    subst heq
    exact generate_short this unitToDivider _ pre e post l now ipFilter uidFilter _
      (fun x hx => (checkEntry_none_iff ipFilter uidFilter x).2 (hpre x hx))
      ((checkEntry_allow_iff ipFilter uidFilter e).2 he)
  · rintro ⟨hdom, pre, e, post, heq, hpre, he⟩
    subst hdom
    subst heq
    exact generate_short this unitToDivider _ pre e post l now ipFilter uidFilter _
      (fun x hx => (checkEntry_none_iff ipFilter uidFilter x).2 (hpre x hx))
      ((checkEntry_deny_iff ipFilter uidFilter e).2 he)

/-- An entry at which the loop returns is the first decisive entry, and the value
returned is the one of its verdict. -/
theorem firstDecisive_of_short (domain : String) (ipFilter uidFilter : Filter)
    (pre : List Entry) (e : Entry) (post : List Entry) (ck : CacheKey)
    (hpre : ∀ x ∈ pre, checkEntry domain ipFilter uidFilter x = none)
    (he : checkEntry domain ipFilter uidFilter e = some ck) :
    (ck = ⟨"", false⟩ ∧
      FirstDecisive domain ipFilter uidFilter (pre ++ e :: post) FilterAction.Allow) ∨
    (ck = ⟨"_user_blocked", false⟩ ∧
      FirstDecisive domain ipFilter uidFilter (pre ++ e :: post) FilterAction.Deny) := by
  have hdom : domain = "edge_proxy_per_ip" := by
    by_contra hne
    rw [checkEntry_other_domain domain ipFilter uidFilter e hne] at he
    exact Option.noConfusion he
  subst hdom
  have hpre2 : ∀ x ∈ pre, ¬ Decisive ipFilter uidFilter x :=
    fun x hx => (checkEntry_none_iff ipFilter uidFilter x).1 (hpre x hx)
  rcases checkEntry_some_cases _ _ _ _ _ he with hck | hck
  · left
    subst hck
    exact ⟨rfl, rfl, pre, e, post, rfl, hpre2, (checkEntry_allow_iff ipFilter uidFilter e).1 he⟩
  · right
    subst hck
    exact ⟨rfl, rfl, pre, e, post, rfl, hpre2, (checkEntry_deny_iff ipFilter uidFilter e).1 he⟩

theorem not_firstDecisive_of_none (domain : String) (ipFilter uidFilter : Filter)
    (entries : List Entry) (a : FilterAction) (ha : a ≠ FilterAction.Error)
    (hall : ∀ e ∈ entries, checkEntry domain ipFilter uidFilter e = none) :
    ¬ FirstDecisive domain ipFilter uidFilter entries a := by
  rintro ⟨hdom, pre, e, post, heq, _, he⟩
  subst hdom
  subst heq
  have hnd := (checkEntry_none_iff ipFilter uidFilter e).1 (hall e (by simp))
  apply hnd
  cases a with
  | Allow => exact Or.inl he
  | Deny => exact Or.inr he
  | Error => exact absurd rfl ha

/-! ## The bucket -/

theorem bucketOf_of_isInt64 (now d : Int) (hnow : IsInt64 now) (hd : 0 < d) :
    bucketOf now d = some (Int.tdiv now d * d) := by
  unfold bucketOf
  rw [int64Div_of_ne_zero now d (ne_of_gt hd)]
  simp only [bucket_of_isInt64 now d hnow hd]

/-- On the path without short-circuit the suffix of the key is the bucket of the
timestamp. -/
theorem generate_normal_bucketOf (this : CacheKeyGenerator)
    (unitToDivider : RateLimitUnit → Option Int) (domain : String) (entries : List Entry)
    (limit : RateLimit) (d now bucket : Int) (ipFilter uidFilter : Filter)
    (hn : ∀ e ∈ entries, checkEntry domain ipFilter uidFilter e = none)
    (hd : unitToDivider limit.Unit = some d) (hb : bucketOf now d = some bucket) :
    (GenerateCacheKey this unitToDivider domain (some ⟨entries⟩) (some limit) now
        ipFilter uidFilter).1 =
      some ⟨this.pfx ++ domain ++ "_" ++ entriesSegment entries ++ formatInt bucket,
            isPerSecondLimit limit.Unit⟩ := by
  have hd0 : d ≠ 0 := by
    intro h0
    subst h0
    simp [bucketOf, int64Div] at hb
  rw [generate_normal this unitToDivider domain entries limit d now ipFilter uidFilter hn hd
    hd0]
  unfold bucketOf at hb
  rw [int64Div_of_ne_zero now d hd0] at hb
  simp only [Option.some.injEq] at hb
  rw [hb]

/-! ## The buffer put back on each exit path -/

theorem push_separator (b : Buffer) : b.push '_' = b ++ "_" := by
  apply String.ext
  simp [String.data_append, String.data_push]

/-- When the loop returns at `e`, the buffer holds what was written for the
entries before `e`. -/
theorem entryLoop_short_full (domain : String) (ipFilter uidFilter : Filter)
    (ck : CacheKey) (e : Entry) (post : List Entry) :
    ∀ (pre : List Entry) (b : Buffer),
      (∀ x ∈ pre, checkEntry domain ipFilter uidFilter x = none) →
      checkEntry domain ipFilter uidFilter e = some ck →
      entryLoop domain ipFilter uidFilter (pre ++ e :: post) b =
        (b ++ entriesSegment pre, some ck) := by
  intro pre
  induction pre with
  | nil =>
    intro b _ he
    simp only [List.nil_append, entryLoop, he, entriesSegment]
    congr 1
    apply String.ext
    simp [String.data_append]
  | cons x xs ih =>
    intro b h he
    have hx := h x (List.mem_cons_self x xs)
    have hxs : ∀ y ∈ xs, checkEntry domain ipFilter uidFilter y = none :=
      fun y hy => h y (List.mem_cons_of_mem x hy)
    simp only [List.cons_append, entryLoop, hx]
    refine (ih _ hxs he).trans ?_
    rw [writeEntry_eq]
    congr 1
    apply String.ext
    simp [entriesSegment, String.data_append]

/-- An early return of the loop: the value is returned and the buffer of the loop
is put back. -/
theorem generate_pair_short (this : CacheKeyGenerator)
    (unitToDivider : RateLimitUnit → Option Int) (domain : String) (entries : List Entry)
    (l : RateLimit) (now : Int) (ipFilter uidFilter : Filter) (b2 : Buffer) (ck : CacheKey)
    (h : entryLoop domain ipFilter uidFilter entries
      (((bufferReset (poolGet this.bufferPool).1 ++ this.pfx) ++ domain).push '_') =
        (b2, some ck)) :
    GenerateCacheKey this unitToDivider domain (some ⟨entries⟩) (some l) now
        ipFilter uidFilter =
      (some ck, { pfx := this.pfx, bufferPool := poolPut (poolGet this.bufferPool).2 b2 }) := by
  unfold GenerateCacheKey
  simp only [h]

/-- The normal return: the key is the buffer of the loop with the formatted
bucket appended, and that buffer is put back. -/
theorem generate_pair_normal (this : CacheKeyGenerator)
    (unitToDivider : RateLimitUnit → Option Int) (domain : String) (entries : List Entry)
    (l : RateLimit) (d now bucket : Int) (ipFilter uidFilter : Filter) (b2 : Buffer)
    (h : entryLoop domain ipFilter uidFilter entries
      (((bufferReset (poolGet this.bufferPool).1 ++ this.pfx) ++ domain).push '_') =
        (b2, none))
    (hd : unitToDivider l.Unit = some d) (hb : bucketOf now d = some bucket) :
    GenerateCacheKey this unitToDivider domain (some ⟨entries⟩) (some l) now
        ipFilter uidFilter =
      (some ⟨b2 ++ formatInt bucket, isPerSecondLimit l.Unit⟩,
        { pfx := this.pfx,
          bufferPool := poolPut (poolGet this.bufferPool).2 (b2 ++ formatInt bucket) }) := by
  unfold bucketOf at hb
  unfold GenerateCacheKey
  cases hq : int64Div now d with
  | none => rw [hq] at hb; exact Option.noConfusion hb
  | some q =>
    rw [hq] at hb
    simp only [Option.some.injEq] at hb
    simp only [h, hd, hq, hb]

/-- The panic of line 118 or 119: nothing is returned and the buffer of the loop
is put back by the deferred call. -/
theorem generate_pair_panic (this : CacheKeyGenerator)
    (unitToDivider : RateLimitUnit → Option Int) (domain : String) (entries : List Entry)
    (l : RateLimit) (now : Int) (ipFilter uidFilter : Filter) (b2 : Buffer)
    (h : entryLoop domain ipFilter uidFilter entries
      (((bufferReset (poolGet this.bufferPool).1 ++ this.pfx) ++ domain).push '_') =
        (b2, none))
    (hd : unitToDivider l.Unit = none ∨ unitToDivider l.Unit = some 0) :
    GenerateCacheKey this unitToDivider domain (some ⟨entries⟩) (some l) now
        ipFilter uidFilter =
      (none, { pfx := this.pfx, bufferPool := poolPut (poolGet this.bufferPool).2 b2 }) := by
  unfold GenerateCacheKey
  rcases hd with hd | hd
  · simp only [h, hd]
  · simp only [h, hd, int64Div, if_true]

theorem poolGet_cases (pool : List Buffer) :
    (pool = [] ∧ poolGet pool = ("", [])) ∨
      pool = (poolGet pool).1 :: (poolGet pool).2 := by
  cases pool with
  | nil => exact Or.inl ⟨rfl, rfl⟩
  | cons x xs => exact Or.inr rfl

/-! ## Key layout and bypass -/

/-- C1 (key layout). With a present limit whose unit has divider `d > 0`, a
timestamp `now >= 0` in the `int64` range and a descriptor none of whose entries
triggers a filter short-circuit (always so outside "edge_proxy_per_ip"), the
call returns the key `prefix ++ domain ++ "_" ++ key_value_ segments ++
decimal ((now / d) * d)`; for the empty descriptor the key is
`prefix ++ domain ++ "_" ++ decimal bucket`. For these signs Lean's `/` on `Int`
is the floor quotient and agrees with Go's truncated quotient. -/
theorem C1_key_layout (this : CacheKeyGenerator) (unitToDivider : RateLimitUnit → Option Int)
    (domain : String) (entries : List Entry) (limit : RateLimit) (d now : Int)
    (ipFilter uidFilter : Filter)
    (hd : unitToDivider limit.Unit = some d) (hdpos : 0 < d)
    (hnow : 0 ≤ now) (h64 : IsInt64 now)
    (hns : NoShortCircuit domain ipFilter uidFilter entries) :
    (GenerateCacheKey this unitToDivider domain (some ⟨entries⟩) (some limit) now
        ipFilter uidFilter).1 =
      some ⟨this.pfx ++ domain ++ "_" ++ entriesSegment entries ++ formatInt (now / d * d),
            isPerSecondLimit limit.Unit⟩ ∧
    (GenerateCacheKey this unitToDivider domain (some ⟨[]⟩) (some limit) now
        ipFilter uidFilter).1 =
      some ⟨this.pfx ++ domain ++ "_" ++ formatInt (now / d * d),
            isPerSecondLimit limit.Unit⟩ := by
  have hb : int64Mul (wrap64 (Int.tdiv now d)) d = now / d * d := by
    rw [bucket_of_isInt64 now d h64 hdpos, Int.tdiv_eq_ediv hnow (le_of_lt hdpos)]
  constructor
  · rw [generate_normal this unitToDivider domain entries limit d now ipFilter uidFilter
      (checkEntry_none_of_noShortCircuit domain ipFilter uidFilter entries hns) hd
      (ne_of_gt hdpos), hb]
  · rw [generate_normal this unitToDivider domain [] limit d now ipFilter uidFilter
      (fun e he => absurd he (List.not_mem_nil e)) hd (ne_of_gt hdpos), hb]
    congr 2
    apply String.ext
    simp [entriesSegment, String.data_append]

theorem C1_key_layout_witness :
    (GenerateCacheKey (NewCacheKeyGenerator "rl_") sampleDivider "foo"
        (some ⟨[⟨"k1", "v1"⟩]⟩) (some ⟨RateLimitUnit.SECOND⟩) 1000 errorFilter errorFilter).1
      = some ⟨"rl_foo_k1_v1_1000", true⟩ ∧
    (GenerateCacheKey (NewCacheKeyGenerator "rl_") sampleDivider "foo"
        (some ⟨[⟨"k1", "v1"⟩]⟩) (some ⟨RateLimitUnit.MINUTE⟩) 125 errorFilter errorFilter).1
      = some ⟨"rl_foo_k1_v1_120", false⟩ ∧
    (GenerateCacheKey (NewCacheKeyGenerator "rl_") sampleDivider "foo"
        (some ⟨[]⟩) (some ⟨RateLimitUnit.MINUTE⟩) 125 errorFilter errorFilter).1
      = some ⟨"rl_foo_120", false⟩ :=
  ⟨(C1_key_layout (NewCacheKeyGenerator "rl_") sampleDivider "foo" [⟨"k1", "v1"⟩]
      ⟨RateLimitUnit.SECOND⟩ 1 1000 errorFilter errorFilter rfl (by decide) (by decide)
      (by decide) (by decide)).1.trans (by decide),
   (C1_key_layout (NewCacheKeyGenerator "rl_") sampleDivider "foo" [⟨"k1", "v1"⟩]
      ⟨RateLimitUnit.MINUTE⟩ 60 125 errorFilter errorFilter rfl (by decide) (by decide)
      (by decide) (by decide)).1.trans (by decide),
   (C1_key_layout (NewCacheKeyGenerator "rl_") sampleDivider "foo" [⟨"k1", "v1"⟩]
      ⟨RateLimitUnit.MINUTE⟩ 60 125 errorFilter errorFilter rfl (by decide) (by decide)
      (by decide) (by decide)).2.trans (by decide)⟩

/-- C2 (bypass law). With an absent limit the call returns
`CacheKey{Key: "", PerSecond: false}` for every generator, domain, descriptor
(present or nil, filtered or not), timestamp and pair of filters. -/
theorem C2_bypass_law (this : CacheKeyGenerator) (unitToDivider : RateLimitUnit → Option Int)
    (domain : String) (descriptor : Option RateLimitDescriptor) (now : Int)
    (ipFilter uidFilter : Filter) :
    (GenerateCacheKey this unitToDivider domain descriptor none now ipFilter uidFilter).1 =
      some { Key := "", PerSecond := false } := rfl

/-! ## Window alignment -/

theorem tdiv_eq_of_floor_eq (now1 now2 d : Int) (hdpos : 0 < d)
    (hq : (0 ≤ now1 ∧ 0 ≤ now2 ∧ Int.fdiv now1 d = Int.fdiv now2 d) ∨
      Int.tdiv now1 d = Int.tdiv now2 d) :
    Int.tdiv now1 d = Int.tdiv now2 d := by
  rcases hq with ⟨h1, h2, h⟩ | h
  · rw [Int.fdiv_eq_ediv _ (le_of_lt hdpos), Int.fdiv_eq_ediv _ (le_of_lt hdpos)] at h
    rw [Int.tdiv_eq_ediv h1 (le_of_lt hdpos), Int.tdiv_eq_ediv h2 (le_of_lt hdpos), h]
  · exact h

theorem generate_same_quotient (this : CacheKeyGenerator)
    (unitToDivider : RateLimitUnit → Option Int) (domain : String)
    (descriptor : Option RateLimitDescriptor) (limit : RateLimit) (d now1 now2 : Int)
    (ipFilter uidFilter : Filter) (hd : unitToDivider limit.Unit = some d)
    (hq : Int.tdiv now1 d = Int.tdiv now2 d) :
    GenerateCacheKey this unitToDivider domain descriptor (some limit) now1 ipFilter uidFilter =
      GenerateCacheKey this unitToDivider domain descriptor (some limit) now2
        ipFilter uidFilter := by
  unfold GenerateCacheKey
  cases descriptor with
  | none => rfl
  | some desc =>
    simp only [hd, int64Div, hq]

/-- C3 (window alignment, equal direction), as the code has it. For a present
limit with divider `d > 0` and `int64` timestamps `now1`, `now2`: if both are
non-negative and `floor(now1/d) = floor(now2/d)`, or if the truncated quotients
`now1/d` and `now2/d` of Go's integer division are equal, then the two calls
return the same `CacheKey`; and on the path without short-circuit the suffix
appended is the decimal string of `trunc(now/d) * d`. -/
theorem C3_window_alignment_equal (this : CacheKeyGenerator)
    (unitToDivider : RateLimitUnit → Option Int) (domain : String)
    (descriptor : Option RateLimitDescriptor) (limit : RateLimit) (d now1 now2 : Int)
    (ipFilter uidFilter : Filter)
    (hd : unitToDivider limit.Unit = some d) (hdpos : 0 < d)
    (h1 : IsInt64 now1) (_h2 : IsInt64 now2)
    (hq : (0 ≤ now1 ∧ 0 ≤ now2 ∧ Int.fdiv now1 d = Int.fdiv now2 d) ∨
      Int.tdiv now1 d = Int.tdiv now2 d) :
    (GenerateCacheKey this unitToDivider domain descriptor (some limit) now1
        ipFilter uidFilter).1 =
      (GenerateCacheKey this unitToDivider domain descriptor (some limit) now2
        ipFilter uidFilter).1 ∧
    (∀ entries : List Entry, descriptor = some ⟨entries⟩ →
      NoShortCircuit domain ipFilter uidFilter entries →
      (GenerateCacheKey this unitToDivider domain descriptor (some limit) now1
          ipFilter uidFilter).1 =
        some ⟨this.pfx ++ domain ++ "_" ++ entriesSegment entries ++
                formatInt (Int.tdiv now1 d * d),
              isPerSecondLimit limit.Unit⟩) := by
  constructor
  · rw [generate_same_quotient this unitToDivider domain descriptor limit d now1 now2
      ipFilter uidFilter hd (tdiv_eq_of_floor_eq now1 now2 d hdpos hq)]
  · intro entries hdesc hns
    subst hdesc
    rw [generate_normal this unitToDivider domain entries limit d now1 ipFilter uidFilter
      (checkEntry_none_of_noShortCircuit domain ipFilter uidFilter entries hns) hd
      (ne_of_gt hdpos), bucket_of_isInt64 now1 d h1 hdpos]

theorem C3_window_alignment_equal_witness :
    (GenerateCacheKey (NewCacheKeyGenerator "rl_") sampleDivider "foo"
        (some ⟨[⟨"k1", "v1"⟩]⟩) (some ⟨RateLimitUnit.MINUTE⟩) (-59) errorFilter errorFilter).1 =
      (GenerateCacheKey (NewCacheKeyGenerator "rl_") sampleDivider "foo"
        (some ⟨[⟨"k1", "v1"⟩]⟩) (some ⟨RateLimitUnit.MINUTE⟩) 59 errorFilter errorFilter).1 ∧
    (GenerateCacheKey (NewCacheKeyGenerator "rl_") sampleDivider "foo"
        (some ⟨[⟨"k1", "v1"⟩]⟩) (some ⟨RateLimitUnit.MINUTE⟩) (-59) errorFilter errorFilter).1 =
      some ⟨"rl_foo_k1_v1_0", false⟩ :=
  have h := C3_window_alignment_equal (NewCacheKeyGenerator "rl_") sampleDivider "foo"
    (some ⟨[⟨"k1", "v1"⟩]⟩) ⟨RateLimitUnit.MINUTE⟩ 60 (-59) 59 errorFilter errorFilter rfl
    (by decide) (by decide) (by decide) (Or.inr (by decide))
  ⟨h.1, (h.2 [⟨"k1", "v1"⟩] rfl (by decide)).trans (by decide)⟩

/-- C3, the claim as written fails for negative timestamps: with divider 60 the
timestamps -60 and -1 have the same floor quotient -1, yet the keys end in
"-60" and in "0". -/
theorem C3_floor_counterexample :
    IsInt64 (-60) ∧ IsInt64 (-1) ∧
    sampleDivider RateLimitUnit.MINUTE = some 60 ∧
    Int.fdiv (-60) 60 = Int.fdiv (-1) 60 ∧
    (GenerateCacheKey (NewCacheKeyGenerator "rl_") sampleDivider "foo"
        (some ⟨[⟨"k1", "v1"⟩]⟩) (some ⟨RateLimitUnit.MINUTE⟩) (-60) errorFilter errorFilter).1 =
      some ⟨"rl_foo_k1_v1_-60", false⟩ ∧
    (GenerateCacheKey (NewCacheKeyGenerator "rl_") sampleDivider "foo"
        (some ⟨[⟨"k1", "v1"⟩]⟩) (some ⟨RateLimitUnit.MINUTE⟩) (-1) errorFilter errorFilter).1 =
      some ⟨"rl_foo_k1_v1_0", false⟩ := by
  decide

/-- C4 (window alignment, distinct direction), as the code has it. For a present
limit with divider `d > 0`, a descriptor without filter short-circuit and
`int64` timestamps `now1`, `now2`: if both are non-negative and
`floor(now1/d) != floor(now2/d)`, or if the truncated quotients of Go's integer
division differ, then both calls return a key and the two keys differ. -/
theorem C4_window_alignment_distinct (this : CacheKeyGenerator)
    (unitToDivider : RateLimitUnit → Option Int) (domain : String)
    (entries : List Entry) (limit : RateLimit) (d now1 now2 : Int)
    (ipFilter uidFilter : Filter)
    (hd : unitToDivider limit.Unit = some d) (hdpos : 0 < d)
    (h1 : IsInt64 now1) (h2 : IsInt64 now2)
    (hns : NoShortCircuit domain ipFilter uidFilter entries)
    (hq : (0 ≤ now1 ∧ 0 ≤ now2 ∧ Int.fdiv now1 d ≠ Int.fdiv now2 d) ∨
      Int.tdiv now1 d ≠ Int.tdiv now2 d) :
    ∃ k1 k2 : CacheKey,
      (GenerateCacheKey this unitToDivider domain (some ⟨entries⟩) (some limit) now1
          ipFilter uidFilter).1 = some k1 ∧
      (GenerateCacheKey this unitToDivider domain (some ⟨entries⟩) (some limit) now2
          ipFilter uidFilter).1 = some k2 ∧
      k1.Key ≠ k2.Key := by
  have hn := checkEntry_none_of_noShortCircuit domain ipFilter uidFilter entries hns
  have hne : Int.tdiv now1 d ≠ Int.tdiv now2 d := by
    rcases hq with ⟨p1, p2, h⟩ | h
    · rw [Int.fdiv_eq_ediv _ (le_of_lt hdpos), Int.fdiv_eq_ediv _ (le_of_lt hdpos)] at h
      rw [Int.tdiv_eq_ediv p1 (le_of_lt hdpos), Int.tdiv_eq_ediv p2 (le_of_lt hdpos)]
      exact h
    · exact h
  refine ⟨_, _,
    generate_normal this unitToDivider domain entries limit d now1 ipFilter uidFilter hn hd
      (ne_of_gt hdpos),
    generate_normal this unitToDivider domain entries limit d now2 ipFilter uidFilter hn hd
      (ne_of_gt hdpos), ?_⟩
  intro hk
  have hf := formatInt_injective _ _ (string_append_left_cancel _ _ _ hk)
  rw [bucket_of_isInt64 now1 d h1 hdpos, bucket_of_isInt64 now2 d h2 hdpos] at hf
  exact hne (Int.eq_of_mul_eq_mul_right (ne_of_gt hdpos) hf)

theorem C4_window_alignment_distinct_witness :
    ∃ k1 k2 : CacheKey,
      (GenerateCacheKey (NewCacheKeyGenerator "rl_") sampleDivider "foo"
        (some ⟨[⟨"k1", "v1"⟩]⟩) (some ⟨RateLimitUnit.MINUTE⟩) 59 errorFilter errorFilter).1 =
        some k1 ∧
      (GenerateCacheKey (NewCacheKeyGenerator "rl_") sampleDivider "foo"
        (some ⟨[⟨"k1", "v1"⟩]⟩) (some ⟨RateLimitUnit.MINUTE⟩) 60 errorFilter errorFilter).1 =
        some k2 ∧
      k1.Key ≠ k2.Key :=
  C4_window_alignment_distinct (NewCacheKeyGenerator "rl_") sampleDivider "foo"
    [⟨"k1", "v1"⟩] ⟨RateLimitUnit.MINUTE⟩ 60 59 60 errorFilter errorFilter rfl
    (by decide) (by decide) (by decide) (by decide)
    (Or.inl ⟨by decide, by decide, by decide⟩)

/-- C4, the claim as written fails in two ways. With divider 60 the timestamps -1
and 0 have floor quotients -1 and 0, yet both keys end in "0"; and in the
filtered domain an allowed address gives the key "" at timestamps 0 and 60,
whose floor quotients 0 and 1 differ. -/
theorem C4_distinct_counterexample :
    (IsInt64 (-1) ∧ IsInt64 0 ∧ sampleDivider RateLimitUnit.MINUTE = some 60 ∧
      Int.fdiv (-1) 60 ≠ Int.fdiv 0 60 ∧
      (GenerateCacheKey (NewCacheKeyGenerator "rl_") sampleDivider "foo"
          (some ⟨[⟨"k1", "v1"⟩]⟩) (some ⟨RateLimitUnit.MINUTE⟩) (-1) errorFilter errorFilter).1 =
        some ⟨"rl_foo_k1_v1_0", false⟩ ∧
      (GenerateCacheKey (NewCacheKeyGenerator "rl_") sampleDivider "foo"
          (some ⟨[⟨"k1", "v1"⟩]⟩) (some ⟨RateLimitUnit.MINUTE⟩) 0 errorFilter errorFilter).1 =
        some ⟨"rl_foo_k1_v1_0", false⟩) ∧
    (Int.fdiv 0 60 ≠ Int.fdiv 60 60 ∧
      (GenerateCacheKey (NewCacheKeyGenerator "rl_") sampleDivider "edge_proxy_per_ip"
          (some ⟨[⟨"remote_address", "9.9.9.9"⟩]⟩) (some ⟨RateLimitUnit.MINUTE⟩) 0
          sampleFilter sampleFilter).1 = some ⟨"", false⟩ ∧
      (GenerateCacheKey (NewCacheKeyGenerator "rl_") sampleDivider "edge_proxy_per_ip"
          (some ⟨[⟨"remote_address", "9.9.9.9"⟩]⟩) (some ⟨RateLimitUnit.MINUTE⟩) 60
          sampleFilter sampleFilter).1 = some ⟨"", false⟩) := by
  decide

/-! ## Filter short-circuits -/

/-- C5 (filter allow short-circuit), as the code has it. In domain
"edge_proxy_per_ip" with a present limit, if the descriptor contains an entry
("remote_address", X) with `ipFilter.Match(X) = Allow` and no entry standing
before it is denied by its filter, the call returns the key "" (with
`PerSecond` false), whatever the entries after it. -/
theorem C5_allow_short_circuit (this : CacheKeyGenerator)
    (unitToDivider : RateLimitUnit → Option Int) (pre post : List Entry) (X : String)
    (limit : RateLimit) (now : Int) (ipFilter uidFilter : Filter)
    (hallow : (ipFilter X).1 = FilterAction.Allow)
    (hpre : ∀ x ∈ pre, ¬ DecisiveWith ipFilter uidFilter FilterAction.Deny x) :
    (GenerateCacheKey this unitToDivider "edge_proxy_per_ip"
        (some ⟨pre ++ ⟨"remote_address", X⟩ :: post⟩) (some limit) now ipFilter uidFilter).1 =
      some { Key := "", PerSecond := false } := by
  apply generate_of_loop_some
  intro b
  apply entryLoop_verdict
  · intro x hx
    exact checkEntry_of_not_deny ipFilter uidFilter x (hpre x hx)
  · exact (checkEntry_allow_iff ipFilter uidFilter ⟨"remote_address", X⟩).2
      (Or.inl ⟨rfl, hallow⟩)

theorem C5_allow_short_circuit_witness :
    (GenerateCacheKey (NewCacheKeyGenerator "rl_") sampleDivider "edge_proxy_per_ip"
        (some ⟨[⟨"user_id", "good"⟩, ⟨"k1", "v1"⟩] ++ ⟨"remote_address", "9.9.9.9"⟩ ::
          [⟨"user_id", "bad"⟩]⟩)
        (some ⟨RateLimitUnit.MINUTE⟩) 125 sampleFilter sampleFilter).1 =
      some { Key := "", PerSecond := false } :=
  C5_allow_short_circuit (NewCacheKeyGenerator "rl_") sampleDivider
    [⟨"user_id", "good"⟩, ⟨"k1", "v1"⟩] [⟨"user_id", "bad"⟩] "9.9.9.9"
    ⟨RateLimitUnit.MINUTE⟩ 125 sampleFilter sampleFilter (by decide) (by decide)

/-- C5, the claim as written fails: a "user_id" entry that the user-id filter
denies, standing before the allowed "remote_address" entry, makes the call
return the blocked key. -/
theorem C5_allow_counterexample :
    (sampleFilter "9.9.9.9").1 = FilterAction.Allow ∧
    (GenerateCacheKey (NewCacheKeyGenerator "rl_") sampleDivider "edge_proxy_per_ip"
        (some ⟨[⟨"user_id", "bad"⟩, ⟨"remote_address", "9.9.9.9"⟩]⟩)
        (some ⟨RateLimitUnit.MINUTE⟩) 125 sampleFilter sampleFilter).1 =
      some { Key := "_user_blocked", PerSecond := false } := by
  decide

/-- C6 (filter deny collapse), as the code has it. In domain "edge_proxy_per_ip"
with a present limit, if the descriptor contains an entry ("remote_address", X)
with `ipFilter.Match(X) = Deny` and no entry standing before it is allowed by
its filter, the call returns `CacheKey{Key: "_user_blocked", PerSecond: false}`,
whatever the other entries are. -/
theorem C6_deny_collapse (this : CacheKeyGenerator)
    (unitToDivider : RateLimitUnit → Option Int) (pre post : List Entry) (X : String)
    (limit : RateLimit) (now : Int) (ipFilter uidFilter : Filter)
    (hdeny : (ipFilter X).1 = FilterAction.Deny)
    (hpre : ∀ x ∈ pre, ¬ DecisiveWith ipFilter uidFilter FilterAction.Allow x) :
    (GenerateCacheKey this unitToDivider "edge_proxy_per_ip"
        (some ⟨pre ++ ⟨"remote_address", X⟩ :: post⟩) (some limit) now ipFilter uidFilter).1 =
      some { Key := "_user_blocked", PerSecond := false } := by
  apply generate_of_loop_some
  intro b
  apply entryLoop_verdict
  · intro x hx
    exact checkEntry_of_not_allow ipFilter uidFilter x (hpre x hx)
  · exact (checkEntry_deny_iff ipFilter uidFilter ⟨"remote_address", X⟩).2
      (Or.inl ⟨rfl, hdeny⟩)

theorem C6_deny_collapse_witness :
    (GenerateCacheKey (NewCacheKeyGenerator "rl_") sampleDivider "edge_proxy_per_ip"
        (some ⟨[] ++ ⟨"remote_address", "1.2.3.4"⟩ :: []⟩)
        (some ⟨RateLimitUnit.SECOND⟩) 1000 sampleFilter sampleFilter).1 =
      some { Key := "_user_blocked", PerSecond := false } :=
  C6_deny_collapse (NewCacheKeyGenerator "rl_") sampleDivider [] [] "1.2.3.4"
    ⟨RateLimitUnit.SECOND⟩ 1000 sampleFilter sampleFilter (by decide) (by decide)

/-- C6, the claim as written fails: an allowed "remote_address" entry standing
before the denied one makes the call return the key "". -/
theorem C6_deny_counterexample :
    (sampleFilter "1.2.3.4").1 = FilterAction.Deny ∧
    (GenerateCacheKey (NewCacheKeyGenerator "rl_") sampleDivider "edge_proxy_per_ip"
        (some ⟨[⟨"remote_address", "9.9.9.9"⟩, ⟨"remote_address", "1.2.3.4"⟩]⟩)
        (some ⟨RateLimitUnit.SECOND⟩) 1000 sampleFilter sampleFilter).1 =
      some { Key := "", PerSecond := false } := by
  decide

/-- C7 (per-second flag), as the code has it. A call with a present limit whose
unit has a non-zero divider and a non-nil descriptor returns a `CacheKey` whose
`PerSecond` is false for every unit other than SECOND, equals
`limit.Unit == SECOND` when no filter short-circuit happens, and is false when
one happens (also for the unit SECOND). -/
theorem C7_per_second_flag (this : CacheKeyGenerator)
    (unitToDivider : RateLimitUnit → Option Int) (domain : String) (entries : List Entry)
    (limit : RateLimit) (d now : Int) (ipFilter uidFilter : Filter)
    (hd : unitToDivider limit.Unit = some d) (hd0 : d ≠ 0) :
    ∃ ck : CacheKey,
      (GenerateCacheKey this unitToDivider domain (some ⟨entries⟩) (some limit) now
          ipFilter uidFilter).1 = some ck ∧
      (limit.Unit ≠ RateLimitUnit.SECOND → ck.PerSecond = false) ∧
      (NoShortCircuit domain ipFilter uidFilter entries →
        ck.PerSecond = decide (limit.Unit = RateLimitUnit.SECOND)) ∧
      (¬ NoShortCircuit domain ipFilter uidFilter entries → ck.PerSecond = false) := by
  rcases entries_cases domain ipFilter uidFilter entries with hall | ⟨pre, e, post, ck, heq, hpre, he⟩
  · refine ⟨_, generate_normal this unitToDivider domain entries limit d now ipFilter
      uidFilter hall hd hd0, ?_, ?_, ?_⟩
    · intro hne
      simp [isPerSecondLimit, hne]
    · intro _
      rfl
    · intro hns
      exfalso
      apply hns
      intro hdom e he
      subst hdom
      exact (checkEntry_none_iff ipFilter uidFilter e).1 (hall e he)
  · subst heq
    have hck : ck.PerSecond = false := by
      rcases checkEntry_some_cases _ _ _ _ _ he with rfl | rfl <;> rfl
    refine ⟨ck, generate_short this unitToDivider domain pre e post limit now ipFilter
      uidFilter ck hpre he, fun _ => hck, ?_, fun _ => hck⟩
    intro hns
    exfalso
    have hnone := checkEntry_none_of_noShortCircuit domain ipFilter uidFilter _ hns e
      (by simp)
    rw [hnone] at he
    exact Option.noConfusion he

theorem C7_per_second_flag_witness :
    ∃ ck : CacheKey,
      (GenerateCacheKey (NewCacheKeyGenerator "rl_") sampleDivider "foo"
          (some ⟨[⟨"k1", "v1"⟩]⟩) (some ⟨RateLimitUnit.SECOND⟩) 1000
          errorFilter errorFilter).1 = some ck ∧
      (RateLimitUnit.SECOND ≠ RateLimitUnit.SECOND → ck.PerSecond = false) ∧
      (NoShortCircuit "foo" errorFilter errorFilter [⟨"k1", "v1"⟩] →
        ck.PerSecond = decide (RateLimitUnit.SECOND = RateLimitUnit.SECOND)) ∧
      (¬ NoShortCircuit "foo" errorFilter errorFilter [⟨"k1", "v1"⟩] →
        ck.PerSecond = false) :=
  C7_per_second_flag (NewCacheKeyGenerator "rl_") sampleDivider "foo" [⟨"k1", "v1"⟩]
    ⟨RateLimitUnit.SECOND⟩ 1 1000 errorFilter errorFilter rfl (by decide)

/-- C7, the claim as written fails: with the unit SECOND a denied address returns
`PerSecond` false. -/
theorem C7_flag_counterexample :
    (GenerateCacheKey (NewCacheKeyGenerator "rl_") sampleDivider "edge_proxy_per_ip"
        (some ⟨[⟨"remote_address", "1.2.3.4"⟩]⟩) (some ⟨RateLimitUnit.SECOND⟩) 1000
        sampleFilter sampleFilter).1 =
      some { Key := "_user_blocked", PerSecond := false } ∧
    isPerSecondLimit RateLimitUnit.SECOND = true := by
  decide

/-- C8 (short-circuit by the first decisive entry). In domain
"edge_proxy_per_ip" with a present limit, if `e` is the first decisive entry of
the descriptor (no entry before it is decisive), the call returns
`CacheKey{"", false}` when the verdict on `e` is Allow and
`CacheKey{"_user_blocked", false}` when it is Deny, for every generator (prefix
and pool), every timestamp, every limit unit and divider table (also one that is
undefined or 0 on the unit) and every list of entries after `e`. -/
theorem C8_first_decisive_entry (this : CacheKeyGenerator)
    (unitToDivider : RateLimitUnit → Option Int) (pre : List Entry) (e : Entry)
    (post : List Entry) (limit : RateLimit) (now : Int) (ipFilter uidFilter : Filter)
    (hpre : ∀ x ∈ pre, ¬ Decisive ipFilter uidFilter x)
    (he : Decisive ipFilter uidFilter e) :
    (DecisiveWith ipFilter uidFilter FilterAction.Allow e →
      (GenerateCacheKey this unitToDivider "edge_proxy_per_ip" (some ⟨pre ++ e :: post⟩)
          (some limit) now ipFilter uidFilter).1 = some { Key := "", PerSecond := false }) ∧
    (DecisiveWith ipFilter uidFilter FilterAction.Deny e →
      (GenerateCacheKey this unitToDivider "edge_proxy_per_ip" (some ⟨pre ++ e :: post⟩)
          (some limit) now ipFilter uidFilter).1 =
        some { Key := "_user_blocked", PerSecond := false }) ∧
    ((GenerateCacheKey this unitToDivider "edge_proxy_per_ip" (some ⟨pre ++ e :: post⟩)
          (some limit) now ipFilter uidFilter).1 = some { Key := "", PerSecond := false } ∨
      (GenerateCacheKey this unitToDivider "edge_proxy_per_ip" (some ⟨pre ++ e :: post⟩)
          (some limit) now ipFilter uidFilter).1 =
        some { Key := "_user_blocked", PerSecond := false }) := by
  have hnone : ∀ x ∈ pre, checkEntry "edge_proxy_per_ip" ipFilter uidFilter x = none :=
    fun x hx => (checkEntry_none_iff ipFilter uidFilter x).2 (hpre x hx)
  have hA : DecisiveWith ipFilter uidFilter FilterAction.Allow e →
      (GenerateCacheKey this unitToDivider "edge_proxy_per_ip" (some ⟨pre ++ e :: post⟩)
          (some limit) now ipFilter uidFilter).1 = some { Key := "", PerSecond := false } :=
    fun h => generate_short this unitToDivider _ pre e post limit now ipFilter uidFilter _
      hnone ((checkEntry_allow_iff ipFilter uidFilter e).2 h)
  have hD : DecisiveWith ipFilter uidFilter FilterAction.Deny e →
      (GenerateCacheKey this unitToDivider "edge_proxy_per_ip" (some ⟨pre ++ e :: post⟩)
          (some limit) now ipFilter uidFilter).1 =
        some { Key := "_user_blocked", PerSecond := false } :=
    fun h => generate_short this unitToDivider _ pre e post limit now ipFilter uidFilter _
      hnone ((checkEntry_deny_iff ipFilter uidFilter e).2 h)
  refine ⟨hA, hD, ?_⟩
  rcases he with h | h
  · exact Or.inl (hA h)
  · exact Or.inr (hD h)

theorem C8_first_decisive_entry_witness :
    (GenerateCacheKey (NewCacheKeyGenerator "rl_") sampleDivider "edge_proxy_per_ip"
        (some ⟨[⟨"k1", "v1"⟩, ⟨"remote_address", "8.8.8.8"⟩] ++ ⟨"user_id", "bad"⟩ ::
          [⟨"remote_address", "9.9.9.9"⟩]⟩)
        (some ⟨RateLimitUnit.MONTH⟩) 125 sampleFilter sampleFilter).1 =
      some { Key := "_user_blocked", PerSecond := false } ∧
    sampleDivider RateLimitUnit.MONTH = none :=
  ⟨(C8_first_decisive_entry (NewCacheKeyGenerator "rl_") sampleDivider
      [⟨"k1", "v1"⟩, ⟨"remote_address", "8.8.8.8"⟩] ⟨"user_id", "bad"⟩
      [⟨"remote_address", "9.9.9.9"⟩] ⟨RateLimitUnit.MONTH⟩ 125 sampleFilter sampleFilter
      (by decide) (by decide)).2.1 (by decide), rfl⟩

/-! ## Distinct descriptors, distinct keys -/

/-- C9 (injectivity on delimiter-free entries). For a fixed generator, domain,
present limit with divider `d > 0`, timestamp and filters, and two descriptors
neither of which triggers a filter short-circuit and whose entry keys and values
contain no '_': if the two calls return the same `Key`, the descriptors have the
same entries in the same order. -/
theorem C9_injective_on_delimiter_free (this : CacheKeyGenerator)
    (unitToDivider : RateLimitUnit → Option Int) (domain : String)
    (entries1 entries2 : List Entry) (limit : RateLimit) (d now : Int)
    (ipFilter uidFilter : Filter)
    (hd : unitToDivider limit.Unit = some d) (hdpos : 0 < d)
    (hns1 : NoShortCircuit domain ipFilter uidFilter entries1)
    (hns2 : NoShortCircuit domain ipFilter uidFilter entries2)
    (hdf1 : ∀ e ∈ entries1, DelimiterFree e.Key ∧ DelimiterFree e.Value)
    (hdf2 : ∀ e ∈ entries2, DelimiterFree e.Key ∧ DelimiterFree e.Value)
    (hk : Option.map CacheKey.Key
        (GenerateCacheKey this unitToDivider domain (some ⟨entries1⟩) (some limit) now
          ipFilter uidFilter).1 =
      Option.map CacheKey.Key
        (GenerateCacheKey this unitToDivider domain (some ⟨entries2⟩) (some limit) now
          ipFilter uidFilter).1) :
    entries1 = entries2 := by
  rw [generate_normal this unitToDivider domain entries1 limit d now ipFilter uidFilter
      (checkEntry_none_of_noShortCircuit domain ipFilter uidFilter entries1 hns1) hd
      (ne_of_gt hdpos),
    generate_normal this unitToDivider domain entries2 limit d now ipFilter uidFilter
      (checkEntry_none_of_noShortCircuit domain ipFilter uidFilter entries2 hns2) hd
      (ne_of_gt hdpos)] at hk
  simp only [Option.map_some', Option.some.injEq] at hk
  exact entriesSegment_injective entries1 entries2 hdf1 hdf2
    (string_append_left_cancel _ _ _ (string_append_right_cancel _ _ _ hk))

theorem C9_injective_on_delimiter_free_witness :
    ([⟨"k1", "v1"⟩, ⟨"k2", "v2"⟩] : List Entry) = [⟨"k1", "v1"⟩, ⟨"k2", "v2"⟩] :=
  C9_injective_on_delimiter_free (NewCacheKeyGenerator "rl_") sampleDivider "foo"
    [⟨"k1", "v1"⟩, ⟨"k2", "v2"⟩] [⟨"k1", "v1"⟩, ⟨"k2", "v2"⟩] ⟨RateLimitUnit.MINUTE⟩ 60 125
    errorFilter errorFilter rfl (by decide) (by decide) (by decide) (by decide) (by decide)
    rfl

/-- C10 (order sensitivity), as the code has it. For a present limit with divider
`d > 0` and a descriptor without filter short-circuit that contains two distinct
entries `e1 != e2` whose keys and values contain no '_', both the descriptor and
the descriptor with `e1` and `e2` swapped get a key, and the two keys differ. -/
theorem C10_order_sensitivity (this : CacheKeyGenerator)
    (unitToDivider : RateLimitUnit → Option Int) (domain : String)
    (A B C : List Entry) (e1 e2 : Entry) (limit : RateLimit) (d now : Int)
    (ipFilter uidFilter : Filter)
    (hd : unitToDivider limit.Unit = some d) (hdpos : 0 < d)
    (hne : e1 ≠ e2)
    (hns : NoShortCircuit domain ipFilter uidFilter (A ++ e1 :: (B ++ e2 :: C)))
    (h1k : DelimiterFree e1.Key) (h1v : DelimiterFree e1.Value)
    (h2k : DelimiterFree e2.Key) (h2v : DelimiterFree e2.Value) :
    ∃ k1 k2 : CacheKey,
      (GenerateCacheKey this unitToDivider domain (some ⟨A ++ e1 :: (B ++ e2 :: C)⟩)
          (some limit) now ipFilter uidFilter).1 = some k1 ∧
      (GenerateCacheKey this unitToDivider domain (some ⟨A ++ e2 :: (B ++ e1 :: C)⟩)
          (some limit) now ipFilter uidFilter).1 = some k2 ∧
      k1.Key ≠ k2.Key := by
  have hns2 : NoShortCircuit domain ipFilter uidFilter (A ++ e2 :: (B ++ e1 :: C)) := by
    intro hdom e he
    apply hns hdom e
    simp only [List.mem_append, List.mem_cons] at he ⊢
    tauto
  refine ⟨_, _,
    generate_normal this unitToDivider domain _ limit d now ipFilter uidFilter
      (checkEntry_none_of_noShortCircuit domain ipFilter uidFilter _ hns) hd (ne_of_gt hdpos),
    generate_normal this unitToDivider domain _ limit d now ipFilter uidFilter
      (checkEntry_none_of_noShortCircuit domain ipFilter uidFilter _ hns2) hd
      (ne_of_gt hdpos), ?_⟩
  intro hk
  have hseg := string_append_left_cancel _ _ _ (string_append_right_cancel _ _ _ hk)
  rw [entriesSegment_append, entriesSegment_append] at hseg
  have hrest := string_append_left_cancel _ _ _ hseg
  simp only [entriesSegment] at hrest
  exact hne (segment_head_inj e1 e2 _ _ h1k h1v h2k h2v hrest).1

theorem C10_order_sensitivity_witness :
    ∃ k1 k2 : CacheKey,
      (GenerateCacheKey (NewCacheKeyGenerator "rl_") sampleDivider "foo"
          (some ⟨[⟨"k0", "v0"⟩] ++ ⟨"k1", "v1"⟩ :: ([⟨"a_b", "c"⟩] ++ ⟨"k2", "v2"⟩ :: [])⟩)
          (some ⟨RateLimitUnit.MINUTE⟩) 125 errorFilter errorFilter).1 = some k1 ∧
      (GenerateCacheKey (NewCacheKeyGenerator "rl_") sampleDivider "foo"
          (some ⟨[⟨"k0", "v0"⟩] ++ ⟨"k2", "v2"⟩ :: ([⟨"a_b", "c"⟩] ++ ⟨"k1", "v1"⟩ :: [])⟩)
          (some ⟨RateLimitUnit.MINUTE⟩) 125 errorFilter errorFilter).1 = some k2 ∧
      k1.Key ≠ k2.Key :=
  C10_order_sensitivity (NewCacheKeyGenerator "rl_") sampleDivider "foo"
    [⟨"k0", "v0"⟩] [⟨"a_b", "c"⟩] [] ⟨"k1", "v1"⟩ ⟨"k2", "v2"⟩ ⟨RateLimitUnit.MINUTE⟩ 60 125
    errorFilter errorFilter rfl (by decide) (by decide) (by decide) (by decide) (by decide)
    (by decide) (by decide)

/-- C10, the claim as written fails in two ways. The distinct entries
("a", "b_a") and ("a_b", "a") have the same segment "a_b_a_", so both orders
give one key; and in the filtered domain an allowed address gives the key ""
in either order. -/
theorem C10_order_counterexample :
    ((⟨"a", "b_a"⟩ : Entry) ≠ ⟨"a_b", "a"⟩ ∧
      (GenerateCacheKey (NewCacheKeyGenerator "rl_") sampleDivider "foo"
          (some ⟨[⟨"a", "b_a"⟩, ⟨"a_b", "a"⟩]⟩) (some ⟨RateLimitUnit.MINUTE⟩) 125
          errorFilter errorFilter).1 = some ⟨"rl_foo_a_b_a_a_b_a_120", false⟩ ∧
      (GenerateCacheKey (NewCacheKeyGenerator "rl_") sampleDivider "foo"
          (some ⟨[⟨"a_b", "a"⟩, ⟨"a", "b_a"⟩]⟩) (some ⟨RateLimitUnit.MINUTE⟩) 125
          errorFilter errorFilter).1 = some ⟨"rl_foo_a_b_a_a_b_a_120", false⟩) ∧
    ((⟨"k1", "v1"⟩ : Entry) ≠ ⟨"remote_address", "9.9.9.9"⟩ ∧
      (GenerateCacheKey (NewCacheKeyGenerator "rl_") sampleDivider "edge_proxy_per_ip"
          (some ⟨[⟨"k1", "v1"⟩, ⟨"remote_address", "9.9.9.9"⟩]⟩)
          (some ⟨RateLimitUnit.MINUTE⟩) 125 sampleFilter sampleFilter).1 =
        some ⟨"", false⟩ ∧
      (GenerateCacheKey (NewCacheKeyGenerator "rl_") sampleDivider "edge_proxy_per_ip"
          (some ⟨[⟨"remote_address", "9.9.9.9"⟩, ⟨"k1", "v1"⟩]⟩)
          (some ⟨RateLimitUnit.MINUTE⟩) 125 sampleFilter sampleFilter).1 =
        some ⟨"", false⟩) := by
  decide

/-! ## Filter errors and filter scope -/

/-- C11 (filter Error fails open). In domain "edge_proxy_per_ip" with a present
limit whose unit has divider `d > 0` and a timestamp `0 <= now` in the `int64`
range, if the IP filter answers Error on the value of every "remote_address"
entry and the user-id filter answers Error on the value of every "user_id"
entry, the call returns the ordinary key `prefix ++ domain ++ "_" ++ key_value_
segments (filtered entries included) ++ decimal bucket` with
`PerSecond = (unit == SECOND)`; the key is neither "" nor "_user_blocked", and
filters with the same verdicts and other reason strings give the same result. -/
theorem C11_filter_error_fails_open (this : CacheKeyGenerator)
    (unitToDivider : RateLimitUnit → Option Int) (entries : List Entry) (limit : RateLimit)
    (d now : Int) (ipFilter uidFilter : Filter)
    (hd : unitToDivider limit.Unit = some d) (hdpos : 0 < d)
    (hnow : 0 ≤ now) (h64 : IsInt64 now)
    (hip : ∀ e ∈ entries, e.Key = "remote_address" →
      (ipFilter e.Value).1 = FilterAction.Error)
    (huid : ∀ e ∈ entries, e.Key = "user_id" →
      (uidFilter e.Value).1 = FilterAction.Error) :
    ∃ ck : CacheKey,
      (GenerateCacheKey this unitToDivider "edge_proxy_per_ip" (some ⟨entries⟩) (some limit)
          now ipFilter uidFilter).1 = some ck ∧
      ck = ⟨this.pfx ++ "edge_proxy_per_ip" ++ "_" ++ entriesSegment entries ++
              formatInt (now / d * d), decide (limit.Unit = RateLimitUnit.SECOND)⟩ ∧
      ck.Key ≠ "" ∧ ck.Key ≠ "_user_blocked" ∧
      (∀ ipFilter2 uidFilter2 : Filter,
        (∀ v, (ipFilter2 v).1 = (ipFilter v).1) → (∀ v, (uidFilter2 v).1 = (uidFilter v).1) →
        (GenerateCacheKey this unitToDivider "edge_proxy_per_ip" (some ⟨entries⟩)
          (some limit) now ipFilter2 uidFilter2).1 = some ck) := by
  have hns : ∀ f g : Filter,
      (∀ v, (f v).1 = (ipFilter v).1) → (∀ v, (g v).1 = (uidFilter v).1) →
      NoShortCircuit "edge_proxy_per_ip" f g entries := by
    intro f g hf hg _ e he hdec
    rcases hdec with (⟨hk, hv⟩ | ⟨hk, hv⟩) | (⟨hk, hv⟩ | ⟨hk, hv⟩)
    · rw [hf, hip e he hk] at hv; exact FilterAction.noConfusion hv
    · rw [hg, huid e he hk] at hv; exact FilterAction.noConfusion hv
    · rw [hf, hip e he hk] at hv; exact FilterAction.noConfusion hv
    · rw [hg, huid e he hk] at hv; exact FilterAction.noConfusion hv
  have hb : int64Mul (wrap64 (Int.tdiv now d)) d = now / d * d := by
    rw [bucket_of_isInt64 now d h64 hdpos, Int.tdiv_eq_ediv hnow (le_of_lt hdpos)]
  have hgen : ∀ f g : Filter,
      (∀ v, (f v).1 = (ipFilter v).1) → (∀ v, (g v).1 = (uidFilter v).1) →
      (GenerateCacheKey this unitToDivider "edge_proxy_per_ip" (some ⟨entries⟩) (some limit)
          now f g).1 =
        some ⟨this.pfx ++ "edge_proxy_per_ip" ++ "_" ++ entriesSegment entries ++
              formatInt (now / d * d), decide (limit.Unit = RateLimitUnit.SECOND)⟩ := by
    intro f g hf hg
    rw [generate_normal this unitToDivider _ entries limit d now f g
      (checkEntry_none_of_noShortCircuit _ f g entries (hns f g hf hg)) hd (ne_of_gt hdpos),
      hb]
    rfl
  refine ⟨_, hgen ipFilter uidFilter (fun _ => rfl) (fun _ => rfl), rfl,
    (key_ne_reserved _ _).1, (key_ne_reserved _ _).2, hgen⟩

theorem C11_filter_error_fails_open_witness :
    (GenerateCacheKey (NewCacheKeyGenerator "rl_") sampleDivider "edge_proxy_per_ip"
        (some ⟨[⟨"remote_address", "8.8.8.8"⟩, ⟨"user_id", "u1"⟩, ⟨"k1", "v1"⟩]⟩)
        (some ⟨RateLimitUnit.MINUTE⟩) 125 sampleFilter sampleFilter).1 =
      some ⟨"rl_edge_proxy_per_ip_remote_address_8.8.8.8_user_id_u1_k1_v1_120", false⟩ :=
  (C11_filter_error_fails_open (NewCacheKeyGenerator "rl_") sampleDivider
    [⟨"remote_address", "8.8.8.8"⟩, ⟨"user_id", "u1"⟩, ⟨"k1", "v1"⟩]
    ⟨RateLimitUnit.MINUTE⟩ 60 125 sampleFilter sampleFilter rfl (by decide) (by decide)
    (by decide) (by decide) (by decide)).elim
    (fun _ h => h.1.trans (congrArg some (h.2.1.trans (by decide))))

/-- C12 (filters apply to the reserved domain only, each to its own key only).
In every domain other than "edge_proxy_per_ip" the call returns the same result
for every two pairs of filters; and in "edge_proxy_per_ip" two pairs of filters
give the same result as soon as the IP filters agree on the values of the
"remote_address" entries and the user-id filters agree on the values of the
"user_id" entries, whatever they answer on all other values. -/
theorem C12_filter_scope (this : CacheKeyGenerator)
    (unitToDivider : RateLimitUnit → Option Int) (domain : String)
    (descriptor : Option RateLimitDescriptor) (limit : Option RateLimit) (now : Int)
    (ipFilter uidFilter ipFilter2 uidFilter2 : Filter) :
    (domain ≠ "edge_proxy_per_ip" →
      GenerateCacheKey this unitToDivider domain descriptor limit now ipFilter uidFilter =
        GenerateCacheKey this unitToDivider domain descriptor limit now
          ipFilter2 uidFilter2) ∧
    ((∀ e ∈ descriptorEntries descriptor, e.Key = "remote_address" →
        (ipFilter e.Value).1 = (ipFilter2 e.Value).1) →
      (∀ e ∈ descriptorEntries descriptor, e.Key = "user_id" →
        (uidFilter e.Value).1 = (uidFilter2 e.Value).1) →
      GenerateCacheKey this unitToDivider "edge_proxy_per_ip" descriptor limit now
          ipFilter uidFilter =
        GenerateCacheKey this unitToDivider "edge_proxy_per_ip" descriptor limit now
          ipFilter2 uidFilter2) := by
  constructor
  · intro hdom
    exact generate_congr_loop this unitToDivider domain descriptor limit now _ _ _ _
      (fun b => entryLoop_other_domain domain _ _ _ _ hdom _ b)
  · intro hip huid
    exact generate_congr_loop this unitToDivider _ descriptor limit now _ _ _ _
      (fun b => entryLoop_congr _ _ _ _ _ _ b hip huid)

theorem C12_filter_scope_witness :
    GenerateCacheKey (NewCacheKeyGenerator "rl_") sampleDivider "edge_proxy_per_ip"
        (some ⟨[⟨"remote_address", "8.8.8.8"⟩, ⟨"k1", "1.2.3.4"⟩, ⟨"user_id", "9.9.9.9"⟩]⟩)
        (some ⟨RateLimitUnit.MINUTE⟩) 125 sampleFilter errorFilter =
      GenerateCacheKey (NewCacheKeyGenerator "rl_") sampleDivider "edge_proxy_per_ip"
        (some ⟨[⟨"remote_address", "8.8.8.8"⟩, ⟨"k1", "1.2.3.4"⟩, ⟨"user_id", "9.9.9.9"⟩]⟩)
        (some ⟨RateLimitUnit.MINUTE⟩) 125 errorFilter errorFilter :=
  (C12_filter_scope (NewCacheKeyGenerator "rl_") sampleDivider "foo"
    (some ⟨[⟨"remote_address", "8.8.8.8"⟩, ⟨"k1", "1.2.3.4"⟩, ⟨"user_id", "9.9.9.9"⟩]⟩)
    (some ⟨RateLimitUnit.MINUTE⟩) 125 sampleFilter errorFilter errorFilter errorFilter).2
    (by decide) (by decide)

/-! ## The pool and the absence of errors -/

/-- C13 (determinism across calls and instances). For fixed domain, descriptor,
limit, timestamp and filters, two generators with the same prefix return the
same `CacheKey`, whatever their pools hold; so does the generator that
`NewCacheKeyGenerator` builds for that prefix, and so does the generator left
by any earlier call (a call keeps the prefix). -/
theorem C13_determinism (this this2 : CacheKeyGenerator)
    (unitToDivider : RateLimitUnit → Option Int) (domain : String)
    (descriptor : Option RateLimitDescriptor) (limit : Option RateLimit) (now : Int)
    (ipFilter uidFilter : Filter) (hp : this2.pfx = this.pfx) :
    (GenerateCacheKey this2 unitToDivider domain descriptor limit now ipFilter uidFilter).1 =
      (GenerateCacheKey this unitToDivider domain descriptor limit now ipFilter uidFilter).1 ∧
    (GenerateCacheKey (NewCacheKeyGenerator this.pfx) unitToDivider domain descriptor limit now
        ipFilter uidFilter).1 =
      (GenerateCacheKey this unitToDivider domain descriptor limit now ipFilter uidFilter).1 ∧
    (∀ (domain0 : String) (descriptor0 : Option RateLimitDescriptor)
        (limit0 : Option RateLimit) (now0 : Int) (ipFilter0 uidFilter0 : Filter),
      (GenerateCacheKey
          (GenerateCacheKey this unitToDivider domain0 descriptor0 limit0 now0
            ipFilter0 uidFilter0).2
          unitToDivider domain descriptor limit now ipFilter uidFilter).1 =
        (GenerateCacheKey this unitToDivider domain descriptor limit now
          ipFilter uidFilter).1) := by
  refine ⟨generate_fst_eq this this2 unitToDivider domain descriptor limit now ipFilter
    uidFilter hp, generate_fst_eq this _ unitToDivider domain descriptor limit now ipFilter
    uidFilter rfl, ?_⟩
  intro domain0 descriptor0 limit0 now0 ipFilter0 uidFilter0
  exact generate_fst_eq this _ unitToDivider domain descriptor limit now ipFilter uidFilter
    (generate_pfx this unitToDivider domain0 descriptor0 limit0 now0 ipFilter0 uidFilter0)

theorem C13_determinism_witness :
    (GenerateCacheKey ⟨"rl_", ["left over by an earlier call", "x"]⟩ sampleDivider "foo"
        (some ⟨[⟨"k1", "v1"⟩]⟩) (some ⟨RateLimitUnit.MINUTE⟩) 125 errorFilter errorFilter).1 =
      some ⟨"rl_foo_k1_v1_120", false⟩ :=
  (C13_determinism (NewCacheKeyGenerator "rl_") ⟨"rl_", ["left over by an earlier call", "x"]⟩
    sampleDivider "foo" (some ⟨[⟨"k1", "v1"⟩]⟩) (some ⟨RateLimitUnit.MINUTE⟩) 125
    errorFilter errorFilter rfl).1.trans (by decide)

/-- C17 (no internal error). With a non-nil descriptor and a limit that is absent
or whose unit has a non-zero divider, the call returns a `CacheKey`. With an
absent limit it returns whatever the divider table and the descriptor are, and
when a filter short-circuits it returns whatever the divider of the unit is. The
division of line 119 is the step that can fail: with divider 0 and no
short-circuit the call does not return. -/
theorem C17_no_internal_error (this : CacheKeyGenerator)
    (unitToDivider : RateLimitUnit → Option Int) (domain : String) (entries : List Entry)
    (limit : Option RateLimit) (now : Int) (ipFilter uidFilter : Filter)
    (hdiv : ∀ l, limit = some l → ∃ d, unitToDivider l.Unit = some d ∧ d ≠ 0) :
    (∃ ck : CacheKey,
      (GenerateCacheKey this unitToDivider domain (some ⟨entries⟩) limit now
          ipFilter uidFilter).1 = some ck) ∧
    (∀ (table : RateLimitUnit → Option Int) (descriptor : Option RateLimitDescriptor),
      ∃ ck : CacheKey,
        (GenerateCacheKey this table domain descriptor none now ipFilter uidFilter).1 =
          some ck) ∧
    (∀ (table : RateLimitUnit → Option Int) (l : RateLimit),
      ¬ NoShortCircuit domain ipFilter uidFilter entries →
      ∃ ck : CacheKey,
        (GenerateCacheKey this table domain (some ⟨entries⟩) (some l) now
            ipFilter uidFilter).1 = some ck) ∧
    (∀ (table : RateLimitUnit → Option Int) (l : RateLimit),
      table l.Unit = some 0 → NoShortCircuit domain ipFilter uidFilter entries →
      (GenerateCacheKey this table domain (some ⟨entries⟩) (some l) now
          ipFilter uidFilter).1 = none) := by
  have hshort : ∀ (table : RateLimitUnit → Option Int) (l : RateLimit),
      ¬ NoShortCircuit domain ipFilter uidFilter entries →
      ∃ ck : CacheKey,
        (GenerateCacheKey this table domain (some ⟨entries⟩) (some l) now
            ipFilter uidFilter).1 = some ck := by
    intro table l hns
    rcases entries_cases domain ipFilter uidFilter entries with
      hall | ⟨pre, e, post, ck, heq, hpre, he⟩
    · exact absurd (noShortCircuit_of_checkEntry_none domain ipFilter uidFilter entries hall)
        hns
    · subst heq
      exact ⟨ck, generate_short this table domain pre e post l now ipFilter uidFilter ck
        hpre he⟩
  refine ⟨?_, fun _ _ => ⟨_, rfl⟩, hshort, ?_⟩
  · cases limit with
    | none => exact ⟨_, rfl⟩
    | some l =>
      obtain ⟨d, hd, hd0⟩ := hdiv l rfl
      by_cases hns : NoShortCircuit domain ipFilter uidFilter entries
      · exact ⟨_, generate_normal this unitToDivider domain entries l d now ipFilter
          uidFilter (checkEntry_none_of_noShortCircuit domain ipFilter uidFilter entries hns)
          hd hd0⟩
      · exact hshort unitToDivider l hns
  · intro table l h0 hns
    unfold GenerateCacheKey
    simp only [entryLoop_of_none domain ipFilter uidFilter entries _
      (checkEntry_none_of_noShortCircuit domain ipFilter uidFilter entries hns), h0, int64Div,
      if_true]

theorem C17_no_internal_error_witness :
    ∃ ck : CacheKey,
      (GenerateCacheKey (NewCacheKeyGenerator "rl_") sampleDivider "edge_proxy_per_ip"
          (some ⟨[⟨"remote_address", "8.8.8.8"⟩, ⟨"k1", "v1"⟩]⟩)
          (some ⟨RateLimitUnit.HOUR⟩) (-7200) sampleFilter sampleFilter).1 = some ck :=
  (C17_no_internal_error (NewCacheKeyGenerator "rl_") sampleDivider "edge_proxy_per_ip"
    [⟨"remote_address", "8.8.8.8"⟩, ⟨"k1", "v1"⟩] (some ⟨RateLimitUnit.HOUR⟩) (-7200)
    sampleFilter sampleFilter
    (fun l hl => by cases hl; exact ⟨3600, rfl, by decide⟩)).1

/-- C18 (buffer pool balance). With the pool as explicit state (`Get` takes the
first idle buffer, or makes a new one when the pool is empty): a call with an
absent limit leaves the generator unchanged. A call with a present limit takes
exactly one buffer out of the pool and, on every path, puts back that buffer,
reset and then holding exactly the bytes written up to the exit, on top of the
rest of the pool:
* on the normal return the buffer put back holds the returned key;
* on an Allow or Deny return of either filter it holds prefix, domain,
  separator and the segments of the entries before the returning one;
* on a panic (nil descriptor, unit without divider, divider 0) the deferred
  `Put` still runs, with the bytes written so far.
So the pool afterwards has one buffer on the rest of the old pool, and a
non-empty pool keeps its size. -/
theorem C18_pool_balance (this : CacheKeyGenerator)
    (unitToDivider : RateLimitUnit → Option Int) (domain : String) (now : Int)
    (ipFilter uidFilter : Filter) :
    (∀ descriptor : Option RateLimitDescriptor,
      (GenerateCacheKey this unitToDivider domain descriptor none now
        ipFilter uidFilter).2 = this) ∧
    ((this.bufferPool = [] ∧ poolGet this.bufferPool = ("", [])) ∨
      this.bufferPool = (poolGet this.bufferPool).1 :: (poolGet this.bufferPool).2) ∧
    (∀ l : RateLimit,
      (∀ descriptor : Option RateLimitDescriptor,
        (GenerateCacheKey this unitToDivider domain descriptor (some l) now
            ipFilter uidFilter).2.pfx = this.pfx ∧
        (GenerateCacheKey this unitToDivider domain descriptor (some l) now
            ipFilter uidFilter).2.bufferPool.tail = (poolGet this.bufferPool).2 ∧
        (GenerateCacheKey this unitToDivider domain descriptor (some l) now
            ipFilter uidFilter).2.bufferPool.length =
          (poolGet this.bufferPool).2.length + 1 ∧
        (this.bufferPool ≠ [] →
          (GenerateCacheKey this unitToDivider domain descriptor (some l) now
            ipFilter uidFilter).2.bufferPool.length = this.bufferPool.length)) ∧
      (∀ (entries : List Entry) (d bucket : Int),
        unitToDivider l.Unit = some d → bucketOf now d = some bucket →
        NoShortCircuit domain ipFilter uidFilter entries →
        GenerateCacheKey this unitToDivider domain (some ⟨entries⟩) (some l) now
            ipFilter uidFilter =
          (some ⟨bufferReset (poolGet this.bufferPool).1 ++ this.pfx ++ domain ++ "_" ++
                  entriesSegment entries ++ formatInt bucket, isPerSecondLimit l.Unit⟩,
            { pfx := this.pfx,
              bufferPool := poolPut (poolGet this.bufferPool).2
                (bufferReset (poolGet this.bufferPool).1 ++ this.pfx ++ domain ++ "_" ++
                  entriesSegment entries ++ formatInt bucket) })) ∧
      (∀ (pre : List Entry) (e : Entry) (post : List Entry),
        domain = "edge_proxy_per_ip" →
        (∀ x ∈ pre, ¬ Decisive ipFilter uidFilter x) → Decisive ipFilter uidFilter e →
        ∃ ck : CacheKey,
          (ck = ⟨"", false⟩ ∨ ck = ⟨"_user_blocked", false⟩) ∧
          GenerateCacheKey this unitToDivider domain (some ⟨pre ++ e :: post⟩) (some l) now
              ipFilter uidFilter =
            (some ck,
              { pfx := this.pfx,
                bufferPool := poolPut (poolGet this.bufferPool).2
                  (bufferReset (poolGet this.bufferPool).1 ++ this.pfx ++ domain ++ "_" ++
                    entriesSegment pre) })) ∧
      GenerateCacheKey this unitToDivider domain none (some l) now ipFilter uidFilter =
        (none,
          { pfx := this.pfx,
            bufferPool := poolPut (poolGet this.bufferPool).2
              (bufferReset (poolGet this.bufferPool).1 ++ this.pfx ++ domain ++ "_") }) ∧
      (∀ entries : List Entry,
        (unitToDivider l.Unit = none ∨ unitToDivider l.Unit = some 0) →
        NoShortCircuit domain ipFilter uidFilter entries →
        GenerateCacheKey this unitToDivider domain (some ⟨entries⟩) (some l) now
            ipFilter uidFilter =
          (none,
            { pfx := this.pfx,
              bufferPool := poolPut (poolGet this.bufferPool).2
                (bufferReset (poolGet this.bufferPool).1 ++ this.pfx ++ domain ++ "_" ++
                  entriesSegment entries) }))) := by
  refine ⟨fun _ => rfl, poolGet_cases this.bufferPool, ?_⟩
  intro l
  refine ⟨?_, ?_, ?_, ?_, ?_⟩
  · intro descriptor
    obtain ⟨b, hb⟩ := generate_snd_present this unitToDivider domain descriptor l now
      ipFilter uidFilter
    rw [hb]
    refine ⟨rfl, rfl, rfl, ?_⟩
    intro hne
    cases hpool : this.bufferPool with
    | nil => exact absurd hpool hne
    | cons x xs => rfl
  · intro entries d bucket hd hb hns
    have hloop := entryLoop_of_none domain ipFilter uidFilter entries
      (((bufferReset (poolGet this.bufferPool).1 ++ this.pfx) ++ domain).push '_')
      (checkEntry_none_of_noShortCircuit domain ipFilter uidFilter entries hns)
    rw [generate_pair_normal this unitToDivider domain entries l d now bucket ipFilter
      uidFilter _ hloop hd hb, push_separator]
  · intro pre e post hdom hpre he
    subst hdom
    have hnone : ∀ x ∈ pre, checkEntry "edge_proxy_per_ip" ipFilter uidFilter x = none :=
      fun x hx => (checkEntry_none_iff ipFilter uidFilter x).2 (hpre x hx)
    cases hck : checkEntry "edge_proxy_per_ip" ipFilter uidFilter e with
    | none => exact absurd ((checkEntry_none_iff ipFilter uidFilter e).1 hck) (fun h => h he)
    | some ck =>
      have hloop := entryLoop_short_full "edge_proxy_per_ip" ipFilter uidFilter ck e post pre
        (((bufferReset (poolGet this.bufferPool).1 ++ this.pfx) ++
          "edge_proxy_per_ip").push '_') hnone hck
      refine ⟨ck, checkEntry_some_cases _ _ _ _ _ hck, ?_⟩
      rw [generate_pair_short this unitToDivider _ _ l now ipFilter uidFilter _ ck hloop,
        push_separator]
  · unfold GenerateCacheKey
    simp only [push_separator]
  · intro entries hd hns
    have hloop := entryLoop_of_none domain ipFilter uidFilter entries
      (((bufferReset (poolGet this.bufferPool).1 ++ this.pfx) ++ domain).push '_')
      (checkEntry_none_of_noShortCircuit domain ipFilter uidFilter entries hns)
    rw [generate_pair_panic this unitToDivider domain entries l now ipFilter uidFilter _
      hloop hd, push_separator]

theorem C18_pool_balance_witness :
    GenerateCacheKey ⟨"rl_", ["old bytes", "x"]⟩ sampleDivider "edge_proxy_per_ip"
        (some ⟨[⟨"k1", "v1"⟩, ⟨"remote_address", "8.8.8.8"⟩]⟩)
        (some ⟨RateLimitUnit.MINUTE⟩) 125 sampleFilter sampleFilter =
      (some ⟨"rl_edge_proxy_per_ip_k1_v1_remote_address_8.8.8.8_120", false⟩,
        ⟨"rl_", ["rl_edge_proxy_per_ip_k1_v1_remote_address_8.8.8.8_120", "x"]⟩) ∧
    (∃ ck : CacheKey,
      (ck = ⟨"", false⟩ ∨ ck = ⟨"_user_blocked", false⟩) ∧
      GenerateCacheKey ⟨"rl_", ["old bytes", "x"]⟩ sampleDivider "edge_proxy_per_ip"
          (some ⟨[⟨"k1", "v1"⟩, ⟨"remote_address", "8.8.8.8"⟩] ++
            ⟨"remote_address", "1.2.3.4"⟩ :: [⟨"k2", "v2"⟩]⟩)
          (some ⟨RateLimitUnit.MINUTE⟩) 125 sampleFilter sampleFilter =
        (some ck,
          ⟨"rl_", ["rl_edge_proxy_per_ip_k1_v1_remote_address_8.8.8.8_", "x"]⟩)) ∧
    (GenerateCacheKey ⟨"rl_", ["old bytes", "x"]⟩ sampleDivider "edge_proxy_per_ip"
        (some ⟨[⟨"k1", "v1"⟩]⟩) (some ⟨RateLimitUnit.MINUTE⟩) 125
        sampleFilter sampleFilter).2.bufferPool.length = 2 :=
  ⟨(((C18_pool_balance ⟨"rl_", ["old bytes", "x"]⟩ sampleDivider "edge_proxy_per_ip" 125
      sampleFilter sampleFilter).2.2 ⟨RateLimitUnit.MINUTE⟩).2.1
      [⟨"k1", "v1"⟩, ⟨"remote_address", "8.8.8.8"⟩] 60 120 rfl (by decide)
      (by decide)).trans (by decide),
   (((C18_pool_balance ⟨"rl_", ["old bytes", "x"]⟩ sampleDivider "edge_proxy_per_ip" 125
      sampleFilter sampleFilter).2.2 ⟨RateLimitUnit.MINUTE⟩).2.2.1
      [⟨"k1", "v1"⟩, ⟨"remote_address", "8.8.8.8"⟩] ⟨"remote_address", "1.2.3.4"⟩
      [⟨"k2", "v2"⟩] rfl (by decide) (by decide)).imp
      (fun _ h => ⟨h.1, h.2.trans rfl⟩),
   (((C18_pool_balance ⟨"rl_", ["old bytes", "x"]⟩ sampleDivider "edge_proxy_per_ip" 125
      sampleFilter sampleFilter).2.2 ⟨RateLimitUnit.MINUTE⟩).1
      (some ⟨[⟨"k1", "v1"⟩]⟩)).2.2.2 (by decide)⟩

/-! ## The reserved keys, collisions and the bucket -/

/-- C15 (the two reserved Key values are unambiguous). For every generator (also
with the empty prefix), domain, descriptor, timestamp, filters and limit that is
absent or has a divider `d != 0`: the call returns Key "" exactly when the limit
is absent or the first decisive entry has verdict Allow, and Key
"_user_blocked" exactly when the limit is present and the first decisive entry
has verdict Deny (entries are decisive in the domain "edge_proxy_per_ip", as in
C8); a key built on the path without short-circuit is neither, since it ends
with a decimal digit. -/
theorem C15_reserved_keys_unambiguous (this : CacheKeyGenerator)
    (unitToDivider : RateLimitUnit → Option Int) (domain : String)
    (descriptor : Option RateLimitDescriptor) (limit : Option RateLimit) (now : Int)
    (ipFilter uidFilter : Filter)
    (hdiv : ∀ l, limit = some l → ∃ d, unitToDivider l.Unit = some d ∧ d ≠ 0) :
    (Option.map CacheKey.Key
        (GenerateCacheKey this unitToDivider domain descriptor limit now
          ipFilter uidFilter).1 = some "" ↔
      limit = none ∨
        FirstDecisive domain ipFilter uidFilter (descriptorEntries descriptor)
          FilterAction.Allow) ∧
    (Option.map CacheKey.Key
        (GenerateCacheKey this unitToDivider domain descriptor limit now
          ipFilter uidFilter).1 = some "_user_blocked" ↔
      limit ≠ none ∧
        FirstDecisive domain ipFilter uidFilter (descriptorEntries descriptor)
          FilterAction.Deny) ∧
    (∀ (l : RateLimit) (entries : List Entry), limit = some l →
      descriptor = some ⟨entries⟩ → NoShortCircuit domain ipFilter uidFilter entries →
      ∃ (ck : CacheKey) (body : List Char) (digit : Nat),
        (GenerateCacheKey this unitToDivider domain descriptor limit now
          ipFilter uidFilter).1 = some ck ∧
        ck.Key ≠ "" ∧ ck.Key ≠ "_user_blocked" ∧
        digit < 10 ∧ ck.Key.data = body ++ [Nat.digitChar digit]) := by
  cases limit with
  | none =>
    refine ⟨⟨fun _ => Or.inl rfl, fun _ => rfl⟩, ⟨fun h => ?_, fun h => absurd rfl h.1⟩, ?_⟩
    · have h2 : (some "" : Option String) = some "_user_blocked" := h
      exact absurd h2 (by decide)
    · intro l entries hl
      exact Option.noConfusion hl
  | some l =>
    obtain ⟨d, hd, hd0⟩ := hdiv l rfl
    cases descriptor with
    | none =>
      have hno : ∀ a, ¬ FirstDecisive domain ipFilter uidFilter (descriptorEntries none) a := by
        rintro a ⟨_, pre, e, post, heq, _, _⟩
        simp [descriptorEntries] at heq
      refine ⟨⟨fun h => ?_, fun h => ?_⟩, ⟨fun h => ?_, fun h => absurd h.2 (hno _)⟩, ?_⟩
      · exact absurd h (by simp [GenerateCacheKey])
      · rcases h with h | h
        · exact Option.noConfusion h
        · exact absurd h (hno _)
      · exact absurd h (by simp [GenerateCacheKey])
      · intro l2 entries _ hdesc
        exact Option.noConfusion hdesc
    | some desc =>
      obtain ⟨entries⟩ := desc
      simp only [descriptorEntries]
      have hfd := generate_of_firstDecisive this unitToDivider domain entries l now
        ipFilter uidFilter
      rcases entries_cases domain ipFilter uidFilter entries with
        hall | ⟨pre, e, post, ck, heq, hpre, he⟩
      · have hgen := generate_normal this unitToDivider domain entries l d now ipFilter
          uidFilter hall hd hd0
        have hres := key_ne_reserved (this.pfx ++ domain ++ "_" ++ entriesSegment entries)
          (int64Mul (wrap64 (Int.tdiv now d)) d)
        have hnoA := not_firstDecisive_of_none domain ipFilter uidFilter entries
          FilterAction.Allow (by decide) hall
        have hnoD := not_firstDecisive_of_none domain ipFilter uidFilter entries
          FilterAction.Deny (by decide) hall
        refine ⟨⟨fun h => ?_, fun h => ?_⟩, ⟨fun h => ?_, fun h => absurd h.2 hnoD⟩, ?_⟩
        · rw [hgen] at h
          simp only [Option.map_some', Option.some.injEq] at h
          exact absurd h hres.1
        · rcases h with h | h
          · exact Option.noConfusion h
          · exact absurd h hnoA
        · rw [hgen] at h
          simp only [Option.map_some', Option.some.injEq] at h
          exact absurd h hres.2
        · intro l2 entries2 _ hdesc _
          obtain ⟨body, digit, hdig, hdata⟩ :=
            formatInt_ends_digit (int64Mul (wrap64 (Int.tdiv now d)) d)
          refine ⟨_, (this.pfx ++ domain ++ "_" ++ entriesSegment entries).data ++ body,
            digit, hgen, hres.1, hres.2, hdig, ?_⟩
          simp only [String.data_append, hdata, List.append_assoc]
      · subst heq
        have hgen := generate_short this unitToDivider domain pre e post l now ipFilter
          uidFilter ck hpre he
        rcases firstDecisive_of_short domain ipFilter uidFilter pre e post ck hpre he with
          ⟨hck, hF⟩ | ⟨hck, hF⟩
        · subst hck
          refine ⟨⟨fun _ => Or.inr hF, fun _ => by rw [hgen]; rfl⟩,
            ⟨fun h => ?_, fun h => ?_⟩, ?_⟩
          · rw [hgen] at h
            exact absurd h (by decide)
          · rw [hfd.2 h.2] at hgen
            exact absurd hgen (by decide)
          · intro l2 entries2 _ hdesc hns
            exfalso
            simp only [Option.some.injEq, RateLimitDescriptor.mk.injEq] at hdesc
            subst hdesc
            have := checkEntry_none_of_noShortCircuit domain ipFilter uidFilter _ hns e
              (by simp)
            rw [this] at he
            exact Option.noConfusion he
        · subst hck
          refine ⟨⟨fun h => ?_, fun h => ?_⟩,
            ⟨fun _ => ⟨fun h => Option.noConfusion h, hF⟩, fun _ => by rw [hgen]; rfl⟩, ?_⟩
          · rw [hgen] at h
            exact absurd h (by decide)
          · rcases h with h | h
            · exact Option.noConfusion h
            · rw [hfd.1 h] at hgen
              exact absurd hgen (by decide)
          · intro l2 entries2 _ hdesc hns
            exfalso
            simp only [Option.some.injEq, RateLimitDescriptor.mk.injEq] at hdesc
            subst hdesc
            have := checkEntry_none_of_noShortCircuit domain ipFilter uidFilter _ hns e
              (by simp)
            rw [this] at he
            exact Option.noConfusion he

theorem C15_reserved_keys_unambiguous_witness :
    Option.map CacheKey.Key
        (GenerateCacheKey (NewCacheKeyGenerator "") sampleDivider "edge_proxy_per_ip"
          (some ⟨[⟨"k1", "v1"⟩, ⟨"user_id", "bad"⟩, ⟨"remote_address", "9.9.9.9"⟩]⟩)
          (some ⟨RateLimitUnit.MINUTE⟩) 125 sampleFilter sampleFilter).1 =
      some "_user_blocked" :=
  ((C15_reserved_keys_unambiguous (NewCacheKeyGenerator "") sampleDivider
    "edge_proxy_per_ip"
    (some ⟨[⟨"k1", "v1"⟩, ⟨"user_id", "bad"⟩, ⟨"remote_address", "9.9.9.9"⟩]⟩)
    (some ⟨RateLimitUnit.MINUTE⟩) 125 sampleFilter sampleFilter
    (fun l hl => by cases hl; exact ⟨60, rfl, by decide⟩)).2.1).2
    ⟨by decide, rfl, [⟨"k1", "v1"⟩], ⟨"user_id", "bad"⟩, [⟨"remote_address", "9.9.9.9"⟩],
      rfl, by decide, by decide⟩

/-- C16 (unescaped separators collide). In domain "foo" with prefix "rl_", unit
MINUTE and timestamp 125, the different descriptors [("a","b_c")] and
[("a_b","c")] get the same key, and so do [("a","b"),("c","d")] and
[("a","b_c_d")]. -/
theorem C16_separator_collision :
    (([⟨"a", "b_c"⟩] : List Entry) ≠ [⟨"a_b", "c"⟩] ∧
      (GenerateCacheKey (NewCacheKeyGenerator "rl_") sampleDivider "foo"
          (some ⟨[⟨"a", "b_c"⟩]⟩) (some ⟨RateLimitUnit.MINUTE⟩) 125
          errorFilter errorFilter).1 = some ⟨"rl_foo_a_b_c_120", false⟩ ∧
      (GenerateCacheKey (NewCacheKeyGenerator "rl_") sampleDivider "foo"
          (some ⟨[⟨"a_b", "c"⟩]⟩) (some ⟨RateLimitUnit.MINUTE⟩) 125
          errorFilter errorFilter).1 = some ⟨"rl_foo_a_b_c_120", false⟩) ∧
    (([⟨"a", "b"⟩, ⟨"c", "d"⟩] : List Entry) ≠ [⟨"a", "b_c_d"⟩] ∧
      (GenerateCacheKey (NewCacheKeyGenerator "rl_") sampleDivider "foo"
          (some ⟨[⟨"a", "b"⟩, ⟨"c", "d"⟩]⟩) (some ⟨RateLimitUnit.MINUTE⟩) 125
          errorFilter errorFilter).1 = some ⟨"rl_foo_a_b_c_d_120", false⟩ ∧
      (GenerateCacheKey (NewCacheKeyGenerator "rl_") sampleDivider "foo"
          (some ⟨[⟨"a", "b_c_d"⟩]⟩) (some ⟨RateLimitUnit.MINUTE⟩) 125
          errorFilter errorFilter).1 = some ⟨"rl_foo_a_b_c_d_120", false⟩) := by
  decide

/-- C19 (the bucket is the start of the window containing now). For every `int64`
timestamp and every divider `d > 0` the bucket `(now/d)*d` of line 119 is
computed without overflow (it is the exact product, lies in the `int64` range
and has `|bucket| <= |now|`), is a multiple of `d`, and is its own bucket; for
`now >= 0` it satisfies `bucket <= now < bucket + d`. -/
theorem C19_bucket_window (now d : Int) (h64 : IsInt64 now) (hd : 0 < d) :
    ∃ bucket : Int,
      bucketOf now d = some bucket ∧
      bucket = Int.tdiv now d * d ∧ IsInt64 bucket ∧ |bucket| ≤ |now| ∧
      d ∣ bucket ∧
      bucketOf bucket d = some bucket ∧
      (0 ≤ now → bucket ≤ now ∧ now < bucket + d) := by
  have hrange : IsInt64 (Int.tdiv now d * d) ∧ |Int.tdiv now d * d| ≤ |now| := by
    by_cases h0 : 0 ≤ now
    · obtain ⟨h1, h2, h3⟩ := tdiv_range_nonneg now d h0 hd
      refine ⟨by unfold IsInt64 at *; omega, ?_⟩
      rw [abs_of_nonneg (by omega : (0 : Int) ≤ Int.tdiv now d * d), abs_of_nonneg h0]
      exact h3
    · obtain ⟨h1, h2, h3⟩ := tdiv_range_nonpos now d (by omega) hd
      refine ⟨by unfold IsInt64 at *; omega, ?_⟩
      rw [abs_of_nonpos (by omega : Int.tdiv now d * d ≤ 0), abs_of_nonpos (by omega : now ≤ 0)]
      omega
  refine ⟨Int.tdiv now d * d, bucketOf_of_isInt64 now d h64 hd, rfl, hrange.1, hrange.2,
    dvd_mul_left d _, ?_, ?_⟩
  · rw [bucketOf_of_isInt64 _ d hrange.1 hd, Int.mul_tdiv_cancel _ (ne_of_gt hd)]
  · intro h0
    rw [Int.tdiv_eq_ediv h0 (le_of_lt hd)]
    refine ⟨Int.ediv_mul_le now (ne_of_gt hd), ?_⟩
    have := Int.lt_ediv_add_one_mul_self now hd
    linarith

theorem C19_bucket_window_witness :
    bucketOf 125 60 = some 120 ∧ bucketOf (-125) 60 = some (-120) ∧
    ∃ bucket : Int,
      bucketOf 125 60 = some bucket ∧
      bucket = Int.tdiv 125 60 * 60 ∧ IsInt64 bucket ∧ |bucket| ≤ |(125 : Int)| ∧
      (60 : Int) ∣ bucket ∧
      bucketOf bucket 60 = some bucket ∧
      ((0 : Int) ≤ 125 → bucket ≤ 125 ∧ 125 < bucket + 60) :=
  ⟨by decide, by decide, C19_bucket_window 125 60 (by decide) (by decide)⟩

end Limiter
